import Mathlib

/-!
Verification development for the timing analyzer of the svg-video repository.

The core logic lives in `src/lib/svg-analyzer.ts` (dimension extraction and
SMIL-animation timing analysis), `src/lib/utils.ts` (the time-string parser
`parseTime`), and the CLI entry point (the duration decision policy in `main`).
This file gives a shallow embedding of those functions and proves the frozen
specification claims about them.

Modelling conventions:
* JavaScript numbers are modelled by `JSNum`: `NaN`, the two infinities, and
  finite values as exact rationals (binary64 rounding and overflow of finite
  decimal literals to `Infinity` are not modelled; every literal appearing in
  the analyzed attribute grammar is exact and small).
* `getAttribute` results are `Option String` (`none` = attribute absent);
  JavaScript string truthiness (`""` falsy) is `truthy`.
* DOM enumeration of the five animation tags is abstracted as the list of
  animation directives in document iteration order.
* Strings are processed through their character lists; the JS regexes of the
  source (`/^([\d.]+)(ms|s)$/i`, `/^([\d.]+)/`, `/\s+/`) are implemented
  directly on `List Char`.
-/

set_option maxRecDepth 4000

namespace SvgVideo

/-- Rational addition routed through `mkRat` so that it stays reducible for
kernel evaluation (`Rat.add` is irreducible); proved equal to `+` below. -/
def qAdd (a b : ℚ) : ℚ := mkRat (a.num * b.den + b.num * a.den) (a.den * b.den)

/-- Reducible rational multiplication; proved equal to `*` below. -/
def qMul (a b : ℚ) : ℚ := mkRat (a.num * b.num) (a.den * b.den)

/-- Reducible binary maximum on `ℚ`; proved equal to `max` below. -/
def qMax (a b : ℚ) : ℚ := if a ≤ b then b else a

/-- Reducible binary minimum on `ℚ`; proved equal to `min` below. -/
def qMin (a b : ℚ) : ℚ := if a ≤ b then a else b

/-- A JavaScript number: `NaN`, `Infinity`, `-Infinity`, or a finite value
(modelled as an exact rational). -/
inductive JSNum where
  | nan : JSNum
  | inf : JSNum
  | ninf : JSNum
  | num (q : ℚ) : JSNum
deriving DecidableEq, Repr

namespace JSNum

/-- JS addition (`+` on numbers): `NaN` propagates, `Infinity + -Infinity = NaN`. -/
def add : JSNum → JSNum → JSNum
  | nan, _ => nan
  | _, nan => nan
  | inf, ninf => nan
  | ninf, inf => nan
  | inf, _ => inf
  | _, inf => inf
  | ninf, _ => ninf
  | _, ninf => ninf
  | num a, num b => num (qAdd a b)

/-- JS multiplication: `NaN` propagates and `0 * ±Infinity = NaN`. -/
def mul : JSNum → JSNum → JSNum
  | nan, _ => nan
  | _, nan => nan
  | inf, inf => inf
  | inf, ninf => ninf
  | ninf, inf => ninf
  | ninf, ninf => inf
  | inf, num q => if 0 < q then inf else if q < 0 then ninf else nan
  | num q, inf => if 0 < q then inf else if q < 0 then ninf else nan
  | ninf, num q => if 0 < q then ninf else if q < 0 then inf else nan
  | num q, ninf => if 0 < q then ninf else if q < 0 then inf else nan
  | num a, num b => num (qMul a b)

/-- JS strict comparison `a > b`; any comparison involving `NaN` is `false`. -/
def gt : JSNum → JSNum → Bool
  | nan, _ => false
  | _, nan => false
  | inf, inf => false
  | inf, _ => true
  | ninf, _ => false
  | num _, ninf => true
  | num _, inf => false
  | num a, num b => decide (b < a)

/-- JS comparison `a <= b`; any comparison involving `NaN` is `false`. -/
def le : JSNum → JSNum → Bool
  | nan, _ => false
  | _, nan => false
  | ninf, _ => true
  | inf, inf => true
  | inf, _ => false
  | num _, inf => true
  | num _, ninf => false
  | num a, num b => decide (a ≤ b)

/-- `Math.max` on two values: `NaN` if either argument is `NaN`. -/
def max2 : JSNum → JSNum → JSNum
  | nan, _ => nan
  | _, nan => nan
  | inf, _ => inf
  | _, inf => inf
  | ninf, b => b
  | a, ninf => a
  | num a, num b => num (qMax a b)

/-- `Math.min` on two values: `NaN` if either argument is `NaN`. -/
def min2 : JSNum → JSNum → JSNum
  | nan, _ => nan
  | _, nan => nan
  | ninf, _ => ninf
  | _, ninf => ninf
  | inf, b => b
  | a, inf => a
  | num a, num b => num (qMin a b)

end JSNum

instance exceptDecidableEq {ε α : Type} [DecidableEq ε] [DecidableEq α] :
    DecidableEq (Except ε α) := fun a b =>
  match a, b with
  | Except.error e, Except.error f =>
    if h : e = f then isTrue (congrArg Except.error h)
    else isFalse (fun hc => h (Except.error.inj hc))
  | Except.error _, Except.ok _ => isFalse (fun hc => Except.noConfusion hc)
  | Except.ok _, Except.error _ => isFalse (fun hc => Except.noConfusion hc)
  | Except.ok x, Except.ok y =>
    if h : x = y then isTrue (congrArg Except.ok h)
    else isFalse (fun hc => h (Except.ok.inj hc))

/-- `Math.max(...l)`: spreading a list folds `max2` starting from `-Infinity`
(the value of `Math.max()` with no arguments). -/
def jsMaxList (l : List JSNum) : JSNum := l.foldl JSNum.max2 JSNum.ninf

/-- `Math.min(...l)`: fold of `min2` starting from `Infinity`. -/
def jsMinList (l : List JSNum) : JSNum := l.foldl JSNum.min2 JSNum.inf

/-- Character class of the regex `[\d.]`. -/
def isDigitDot (c : Char) : Bool := c.isDigit || c == '.'

/-- Value of a string of decimal digits. -/
def digitsToNat (l : List Char) : ℕ :=
  l.foldl (fun n c => n * 10 + (c.toNat - '0'.toNat)) 0

/-- Integer part contributed by a digit run. -/
def intVal (l : List Char) : ℚ := (digitsToNat l : ℚ)

/-- Fractional part contributed by the digit run after the decimal point. -/
def fracVal (l : List Char) : ℚ := mkRat (digitsToNat l) (10 ^ l.length)

/-- Powers of ten as rationals (kept kernel-computable). -/
def zpow10 : ℤ → ℚ
  | Int.ofNat n => ((10 ^ n : ℕ) : ℚ)
  | Int.negSucc n => mkRat 1 (10 ^ (n + 1))

/-- Exponent digits of a JS float literal: optional sign then digits; an `e`
not followed by digits contributes exponent 0 (the exponent part is simply
not part of the parsed prefix). -/
def expDigits (t : List Char) : ℤ :=
  match t with
  | '+' :: u => if u.takeWhile Char.isDigit = [] then 0 else (digitsToNat (u.takeWhile Char.isDigit) : ℤ)
  | '-' :: u => if u.takeWhile Char.isDigit = [] then 0 else -(digitsToNat (u.takeWhile Char.isDigit) : ℤ)
  | u => if u.takeWhile Char.isDigit = [] then 0 else (digitsToNat (u.takeWhile Char.isDigit) : ℤ)

/-- Exponent part of a JS float literal at the rest of the input. -/
def expPart (r : List Char) : ℤ :=
  match r with
  | 'e' :: t => expDigits t
  | 'E' :: t => expDigits t
  | _ => 0

/-- Decomposition of a float-literal body into the digits before the decimal
point, the digits after it, and the remaining characters (where an exponent
part may start). -/
def floatParts (body : List Char) : List Char × List Char × List Char :=
  match body.dropWhile Char.isDigit with
  | '.' :: u => (body.takeWhile Char.isDigit, u.takeWhile Char.isDigit, u.dropWhile Char.isDigit)
  | _ => (body.takeWhile Char.isDigit, [], body.dropWhile Char.isDigit)

/-- The unsigned part of JS `parseFloat` after the optional sign: either an
`Infinity` literal, or `digits [. digits] [exponent]` / `. digits [exponent]`,
taking the longest valid prefix; `NaN` when no digits occur before the
exponent position. -/
def parseSigned (sgn : ℚ) (body : List Char) : JSNum :=
  if body.take 8 = ['I', 'n', 'f', 'i', 'n', 'i', 't', 'y'] then
    (if sgn < 0 then JSNum.ninf else JSNum.inf)
  else if (floatParts body).1 = [] ∧ (floatParts body).2.1 = [] then JSNum.nan
  else
    JSNum.num (qMul (qMul sgn (qAdd (intVal (floatParts body).1) (fracVal (floatParts body).2.1)))
      (zpow10 (expPart (floatParts body).2.2)))

/-- JS `parseFloat`: skip leading whitespace, optional sign, then the longest
prefix that is a float literal; `NaN` if none. -/
def jsParseFloat (s : String) : JSNum :=
  match s.data.dropWhile Char.isWhitespace with
  | [] => JSNum.nan
  | c :: rest =>
    if c = '+' then parseSigned 1 rest
    else if c = '-' then parseSigned (-1) rest
    else parseSigned 1 (c :: rest)

/-- The numeric-part handling shared by both unit branches of `parseTime`:
the captured group `[\d.]+` must be nonempty and all digits/dots; the result
is `parseFloat` of the group times the unit scale (1 for `ms`, 1000 for `s`). -/
def numValue (p : List Char) (scale : JSNum) : Option JSNum :=
  if p ≠ [] ∧ p.all isDigitDot then some (JSNum.mul (jsParseFloat (String.mk p)) scale)
  else none

/-- `parseTime` from `src/lib/utils.ts`: match `/^([\d.]+)(ms|s)$/i`, then
`parseFloat` the number and scale by the unit; `null` (`none`) when the regex
does not match.  The regex is resolved from the end of the string: the last
character must be `s`/`S`; if the character before it is `m`/`M` the unit is
`ms`, otherwise it is `s`. -/
def parseTime (s : String) : Option JSNum :=
  match s.data.reverse with
  | c :: rest =>
    if c = 's' ∨ c = 'S' then
      match rest with
      | c2 :: rest2 =>
        if c2 = 'm' ∨ c2 = 'M' then numValue rest2.reverse (JSNum.num 1)
        else numValue (c2 :: rest2).reverse (JSNum.num 1000)
      | [] => none
    else none
  | [] => none

/-- JS string truthiness of a nullable attribute: absent and `""` are falsy. -/
def truthy : Option String → Bool
  | none => false
  | some s => !(s == "")

/-- `attr || defaultValue` on a nullable attribute string. -/
def orDefault (o : Option String) (d : String) : String :=
  match o with
  | none => d
  | some s => if s = "" then d else s

/-! ## The SMIL animation timing resolver (`parseAnimationTiming`) -/
/-- The raw timing attributes of one animation directive
(`animate` / `animateTransform` / `animateMotion` / `set` / `animateColor`);
`none` models an absent attribute. -/
structure AnimDirective where
  dur : Option String
  begin : Option String
  repeatCount : Option String
  repeatDur : Option String
deriving DecidableEq, Repr

/-- The timing window returned by `parseAnimationTiming`. -/
structure TimingWindow where
  endTime : Option JSNum
  isInfinite : Bool
  baseDuration : Option JSNum
  isExplicitInfinite : Bool
deriving DecidableEq, Repr

/-- The `baseDuration` variable of `parseAnimationTiming`: starts at 0 and is
overwritten by `parseTime(durAttr)` when the attribute is truthy and the parse
result is not `null`. -/
def baseDurationOf (el : AnimDirective) : JSNum :=
  if truthy el.dur then
    match parseTime (el.dur.getD "") with
    | some v => v
    | none => JSNum.num 0
  else JSNum.num 0

/-- The `beginTime` variable: `parseTime(beginAttr)` where
`beginAttr = getAttribute('begin') || '0s'`, defaulting to 0 on a `null` parse. -/
def beginTimeOf (el : AnimDirective) : JSNum :=
  match parseTime (orDefault el.begin "0s") with
  | some v => v
  | none => JSNum.num 0

/-- The `repeatCount` variable: 1 unless the attribute is truthy, not the
`indefinite` sentinel, and `parseFloat`s to a value strictly greater than 0
(the `!isNaN(parsed) && parsed > 0` test — a `NaN` never passes `> 0`). -/
def repeatCountOf (el : AnimDirective) : JSNum :=
  if truthy el.repeatCount ∧ el.repeatCount ≠ some "indefinite" then
    let parsed := jsParseFloat (el.repeatCount.getD "")
    if JSNum.gt parsed (JSNum.num 0) then parsed else JSNum.num 1
  else JSNum.num 1

/-- The `repeatDuration` variable: `parseTime(repeatDurAttr)` when the
attribute is truthy and not the sentinel, otherwise `null`. -/
def repeatDurationOf (el : AnimDirective) : Option JSNum :=
  if truthy el.repeatDur ∧ el.repeatDur ≠ some "indefinite" then
    parseTime (el.repeatDur.getD "")
  else none

/-- The `totalDuration` variable: the repeat-duration when it parsed to a
non-`null` value, otherwise `baseDuration * repeatCount`. -/
def totalSpanOf (el : AnimDirective) : JSNum :=
  match repeatDurationOf el with
  | some v => v
  | none => JSNum.mul (baseDurationOf el) (repeatCountOf el)

/-- `parseAnimationTiming` from `src/lib/svg-analyzer.ts`: resolution order is
(1) `dur="indefinite"`; (2) `repeatCount="indefinite"`; (3)
`repeatDur="indefinite"`; (4) the one-hour ceiling
(`MAX_REASONABLE_DURATION = 3600 * 1000`) on the computed total span; (5) the
finite window `endTime = beginTime + totalDuration`. -/
def parseAnimationTiming (el : AnimDirective) : TimingWindow :=
  if el.dur = some "indefinite" then
    { endTime := none, isInfinite := true, baseDuration := none, isExplicitInfinite := false }
  else if el.repeatCount = some "indefinite" then
    { endTime := none, isInfinite := true, baseDuration := some (baseDurationOf el),
      isExplicitInfinite := true }
  else if el.repeatDur = some "indefinite" then
    { endTime := none, isInfinite := true, baseDuration := some (baseDurationOf el),
      isExplicitInfinite := true }
  else if JSNum.gt (totalSpanOf el) (JSNum.num 3600000) then
    { endTime := none, isInfinite := true, baseDuration := some (baseDurationOf el),
      isExplicitInfinite := false }
  else
    { endTime := some (JSNum.add (beginTimeOf el) (totalSpanOf el)), isInfinite := false,
      baseDuration := some (baseDurationOf el), isExplicitInfinite := false }

/-! ## The document-level reduction (`analyzeAnimations`) -/
/-- The mutable locals of the `analyzeAnimations` loop. -/
structure AnimState where
  maxEndTime : JSNum
  hasAnimations : Bool
  hasInfiniteAnimations : Bool
  loopDurations : List JSNum
  infiniteLoopDurations : List JSNum
deriving DecidableEq, Repr

/-- One iteration of the `analyzeAnimations` loop body. -/
def stepAnim (st : AnimState) (el : AnimDirective) : AnimState :=
  let timing := parseAnimationTiming el
  let st1 := { st with hasAnimations := true }
  if timing.isInfinite then
    let st2 := { st1 with hasInfiniteAnimations := true }
    match timing.baseDuration with
    | some v =>
      if JSNum.gt v (JSNum.num 0) then
        let st3 := { st2 with loopDurations := st2.loopDurations ++ [v] }
        if timing.isExplicitInfinite then
          { st3 with infiniteLoopDurations := st3.infiniteLoopDurations ++ [v] }
        else st3
      else st2
    | none => st2
  else
    match timing.endTime with
    | some v => { st1 with maxEndTime := JSNum.max2 st1.maxEndTime v }
    | none => st1

/-- The record returned by `analyzeAnimations`. -/
structure AnimationInfo where
  hasAnimations : Bool
  duration : Option JSNum
  hasInfiniteAnimations : Bool
  loopDuration : Option JSNum
deriving DecidableEq, Repr

/-- `analyzeAnimations` from `src/lib/svg-analyzer.ts`, over the directives of
the document in iteration order: fold the loop body, then compute
`loopDuration` (explicit-forever durations filtered by the 10-minute
`600 * 1000` ceiling, max of survivors, else min of all explicit-forever
durations; heuristic max over all infinite windows when no explicit-forever
duration was collected) and `duration`
(`hasAnimations && !hasInfiniteAnimations && maxEndTime > 0`). -/
def analyzeAnimations (ds : List AnimDirective) : AnimationInfo :=
  let st := ds.foldl stepAnim
    { maxEndTime := JSNum.num 0, hasAnimations := false, hasInfiniteAnimations := false,
      loopDurations := [], infiniteLoopDurations := [] }
  let loopDuration : Option JSNum :=
    if st.hasInfiniteAnimations && !st.loopDurations.isEmpty then
      if !st.infiniteLoopDurations.isEmpty then
        let reasonableLoops := st.infiniteLoopDurations.filter
          fun d => JSNum.le d (JSNum.num 600000)
        if !reasonableLoops.isEmpty then some (jsMaxList reasonableLoops)
        else some (jsMinList st.infiniteLoopDurations)
      else some (jsMaxList st.loopDurations)
    else none
  { hasAnimations := st.hasAnimations
    duration :=
      if st.hasAnimations && !st.hasInfiniteAnimations && JSNum.gt st.maxEndTime (JSNum.num 0)
      then some st.maxEndTime else none
    hasInfiniteAnimations := st.hasInfiniteAnimations
    loopDuration := loopDuration }

/-! ## Dimension extraction (`extractDimensions`) -/
/-- `parseNumericAttribute`: match `/^([\d.]+)/`, `parseFloat` the capture and
return `null` on `NaN` (digit/dot runs never produce an infinity). -/
def parseNumericAttribute (value : String) : Option ℚ :=
  let p := value.data.takeWhile isDigitDot
  if p = [] then none
  else
    match jsParseFloat (String.mk p) with
    | JSNum.num q => some q
    | _ => none

/-- JS `trim` on a character list. -/
def trimChars (l : List Char) : List Char :=
  ((l.dropWhile Char.isWhitespace).reverse.dropWhile Char.isWhitespace).reverse

/-- `viewBox.trim().split(/\s+/)`: for a trimmed nonempty string the tokens
are the maximal whitespace-free runs; splitting character-by-character and
dropping empty pieces yields exactly those runs. -/
def splitWsAux : List Char → List Char → List (List Char)
  | [], acc => [acc.reverse]
  | c :: rest, acc =>
    if c.isWhitespace then acc.reverse :: splitWsAux rest []
    else splitWsAux rest (c :: acc)

/-- The token list used for the `viewBox` fallback. -/
def splitWs (l : List Char) : List (List Char) :=
  (splitWsAux l []).filter fun t => !t.isEmpty

/-- The dimensions record (`SVGDimensions`); the source does not re-validate
the numbers after the `viewBox` fallback, so the components are JS numbers. -/
structure SVGDimensions where
  width : JSNum
  height : JSNum
deriving DecidableEq, Repr

/-- `extractDimensions` from `src/lib/svg-analyzer.ts`: prefer the
`width`/`height` attribute pair; if either is missing/non-numeric and a truthy
`viewBox` splits (on whitespace runs) into exactly four tokens, overwrite both
dimensions with `parseFloat` of the third and fourth token; throw a
`ValidationError` when a dimension is still `null` or fails `> 0`
(note `NaN <= 0` is `false`, so a `NaN` dimension passes). -/
def extractDimensions (widthAttr heightAttr viewBox : Option String) :
    Except String SVGDimensions :=
  let w1 : Option JSNum :=
    if truthy widthAttr then (parseNumericAttribute (widthAttr.getD "")).map JSNum.num
    else none
  let h1 : Option JSNum :=
    if truthy heightAttr then (parseNumericAttribute (heightAttr.getD "")).map JSNum.num
    else none
  let wh : Option JSNum × Option JSNum :=
    if w1 = none ∨ h1 = none then
      if truthy viewBox then
        let parts := splitWs (trimChars (viewBox.getD "").data)
        if parts.length = 4 then
          (some (jsParseFloat (String.mk (parts.getD 2 []))),
           some (jsParseFloat (String.mk (parts.getD 3 []))))
        else (w1, h1)
      else (w1, h1)
    else (w1, h1)
  match wh with
  | (some w, some h) =>
    if JSNum.le w (JSNum.num 0) ∨ JSNum.le h (JSNum.num 0) then
      Except.error "Unable to extract valid dimensions from SVG (no width/height attributes or viewBox)"
    else Except.ok { width := w, height := h }
  | _ =>
    Except.error "Unable to extract valid dimensions from SVG (no width/height attributes or viewBox)"

/-- `analyzeSVG` after the structural parse: extract dimensions from the root
attributes, analyze the directives, and assemble the `SVGAnalysis` record
(a `ValidationError` from dimension extraction aborts the analysis). -/
structure SVGAnalysis where
  dimensions : SVGDimensions
  duration : Option JSNum
  hasAnimations : Bool
  hasInfiniteAnimations : Bool
  loopDuration : Option JSNum
deriving DecidableEq, Repr

def analyzeSVG (widthAttr heightAttr viewBox : Option String) (ds : List AnimDirective) :
    Except String SVGAnalysis :=
  match extractDimensions widthAttr heightAttr viewBox with
  | Except.error e => Except.error e
  | Except.ok dims =>
    let animationInfo := analyzeAnimations ds
    Except.ok
      { dimensions := dims
        duration := animationInfo.duration
        hasAnimations := animationInfo.hasAnimations
        hasInfiniteAnimations := animationInfo.hasInfiniteAnimations
        loopDuration := animationInfo.loopDuration }

/-! ## The CLI duration decision (`main`) -/
/-- The inferred-duration cascade of `main` when no manual duration wins:
infinite animations use `loopDuration` when it is non-null and `> 0`, else
abort; no animations aborts; unknown total duration aborts; otherwise the
total duration is used. -/
def inferDurationMs (a : AnimationInfo) : Except String JSNum :=
  if a.hasInfiniteAnimations then
    match a.loopDuration with
    | some v =>
      if JSNum.gt v (JSNum.num 0) then Except.ok v
      else Except.error "SVG contains infinite animations without detectable loop duration. Please specify duration with --duration option."
    | none => Except.error "SVG contains infinite animations without detectable loop duration. Please specify duration with --duration option."
  else if !a.hasAnimations then
    Except.error "No animations detected in SVG. Please specify duration with --duration option."
  else
    match a.duration with
    | none => Except.error "Unable to determine animation duration. Please specify duration with --duration option."
    | some v => Except.ok v

/-- The duration decision of `main`: `if (duration)` is JS truthiness on the
duration option (so a supplied `0` falls through to inference); a
truthy value is validated by `validatePositiveNumber` and converted from
seconds to milliseconds.  The numeric CLI option is modelled as a rational
(`CliOptions` types it `number`). -/
def decideDurationMs (manualSeconds : Option ℚ) (a : AnimationInfo) : Except String JSNum :=
  match manualSeconds with
  | some q =>
    if q ≠ 0 then
      if 0 < q then Except.ok (JSNum.num (qMul q 1000))
      else Except.error "Duration must be a positive number"
    else inferDurationMs a
  | none => inferDurationMs a

/-! ## Spec-side characterizations

These definitions follow the wording of the specification (resolution steps
2, 4 and 5 of the directive timing resolver) rather than the code layout;
each is proved to agree with the corresponding source computation. -/
/-- Spec wording: the base per-iteration duration parsed from the duration
attribute, defaulting to 0 when the attribute is absent or does not parse. -/
def claimedBase (el : AnimDirective) : JSNum :=
  match el.dur with
  | none => JSNum.num 0
  | some d =>
    match parseTime d with
    | some v => v
    | none => JSNum.num 0

/-- Spec wording: the parsed start offset, defaulting to 0 when the begin
attribute is absent or does not parse. -/
def claimedStart (el : AnimDirective) : JSNum :=
  match el.begin with
  | none => JSNum.num 0
  | some b =>
    match parseTime b with
    | some v => v
    | none => JSNum.num 0

/-- Spec wording: the repeat count, defaulting to 1 whenever the attribute is
absent, unparseable (`NaN`), or non-positive. -/
def claimedCount (el : AnimDirective) : JSNum :=
  if truthy el.repeatCount ∧ JSNum.gt (jsParseFloat (el.repeatCount.getD "")) (JSNum.num 0)
  then jsParseFloat (el.repeatCount.getD "")
  else JSNum.num 1

/-- Spec wording: the total span — the parsed repeat-duration when the
attribute is present and parseable, otherwise base duration times repeat
count. -/
def claimedSpan (el : AnimDirective) : JSNum :=
  match (if truthy el.repeatDur then parseTime (el.repeatDur.getD "") else none) with
  | some v => v
  | none => JSNum.mul (claimedBase el) (claimedCount el)

/-- Spec wording: end time = parsed start offset + total span. -/
def endOfClaim (el : AnimDirective) : JSNum :=
  JSNum.add (claimedStart el) (claimedSpan el)

/-! ## Collector view of the `analyzeAnimations` loop -/
/-- The contribution of one directive to `loopDurations`: the base duration of
an infinite window when it is non-null and `> 0`. -/
def loopEntry (el : AnimDirective) : Option JSNum :=
  if (parseAnimationTiming el).isInfinite then
    match (parseAnimationTiming el).baseDuration with
    | some v => if JSNum.gt v (JSNum.num 0) then some v else none
    | none => none
  else none

/-- The contribution of one directive to `infiniteLoopDurations`: as
`loopEntry`, additionally requiring the explicit-forever flag. -/
def explicitLoopEntry (el : AnimDirective) : Option JSNum :=
  if (parseAnimationTiming el).isInfinite then
    match (parseAnimationTiming el).baseDuration with
    | some v =>
      if JSNum.gt v (JSNum.num 0) then
        (if (parseAnimationTiming el).isExplicitInfinite then some v else none)
      else none
    | none => none
  else none

/-- All collected base-loop durations of a directive list. -/
def collectedLoops (ds : List AnimDirective) : List JSNum := ds.filterMap loopEntry

/-- The collected explicit-forever base-loop durations of a directive list. -/
def collectedExplicit (ds : List AnimDirective) : List JSNum :=
  ds.filterMap explicitLoopEntry

/-- The end times of the finite windows of a directive list. -/
def finiteEnds (ds : List AnimDirective) : List JSNum :=
  ds.filterMap fun el =>
    if (parseAnimationTiming el).isInfinite then none else (parseAnimationTiming el).endTime

/-- Whether some directive resolves to an infinite window. -/
def anyInfinite (ds : List AnimDirective) : Bool :=
  ds.any fun el => (parseAnimationTiming el).isInfinite

/-! ## Positivity of collected loop durations -/
/-- A strictly positive finite JS number. -/
def PosNum (v : JSNum) : Prop := ∃ q : ℚ, v = JSNum.num q ∧ 0 < q

/-! ## Influence of the begin attribute -/
/-- Two directives that agree on every timing attribute except possibly
`begin`. -/
def sameTiming (a b : AnimDirective) : Prop :=
  a.dur = b.dur ∧ a.repeatCount = b.repeatCount ∧ a.repeatDur = b.repeatDur

/-! ## The time-string grammar -/
/-- The unit suffixes accepted case-insensitively by the regex of
`parseTime`: `ms` or `s`. -/
def UnitChars (u : List Char) : Prop :=
  (∃ a, u = [a] ∧ (a = 's' ∨ a = 'S')) ∨
    (∃ a b, u = [a, b] ∧ (a = 'm' ∨ a = 'M') ∧ (b = 's' ∨ b = 'S'))

/-- The millisecond scale a unit applies: 1 for `ms` (length 2), 1000 for `s`. -/
def unitScale (u : List Char) : ℚ := if u.length = 1 then 1000 else 1

/-- The language of the regex of the source: a nonempty digit/dot run
followed by a unit. -/
def TimeShape (s : String) : Prop :=
  ∃ p u, s.data = p ++ u ∧ p ≠ [] ∧ p.all isDigitDot = true ∧ UnitChars u

/-- A decimal numeral as in the claimed contract: digits and dots only, at
most one dot, at least one digit. -/
def isNumeral (p : List Char) : Bool :=
  p.all isDigitDot && decide (p.count '.' ≤ 1) && p.any Char.isDigit

/-- The value of a decimal numeral. -/
def numeralVal (p : List Char) : ℚ :=
  match p.dropWhile Char.isDigit with
  | '.' :: t => intVal (p.takeWhile Char.isDigit) + fracVal t
  | _ => intVal (p.takeWhile Char.isDigit)

/-- The `<number><unit>` language of the claimed `parseTime` contract. -/
def NumberShape (s : String) : Prop :=
  ∃ p u, s.data = p ++ u ∧ isNumeral p = true ∧ UnitChars u

/-! ## Decision-policy models and example documents -/
/-- The no-manual-duration cascade, modelled from the spec's words for the
orchestration decision policy: a non-null `loopDuration` is used directly. -/
def inferClaimed (a : AnimationInfo) : Except String JSNum :=
  if a.hasInfiniteAnimations then
    match a.loopDuration with
    | some v => Except.ok v
    | none => Except.error "SVG contains infinite animations without detectable loop duration. Please specify duration with --duration option."
  else if !a.hasAnimations then
    Except.error "No animations detected in SVG. Please specify duration with --duration option."
  else
    match a.duration with
    | none => Except.error "Unable to determine animation duration. Please specify duration with --duration option."
    | some v => Except.ok v

/-- Modelled from the claim's words: a supplied manual duration always wins
(and is validated as a positive number of seconds). -/
def claimedDurationDecision (manual : Option ℚ) (a : AnimationInfo) : Except String JSNum :=
  match manual with
  | some q =>
    if 0 < q then Except.ok (JSNum.num (qMul q 1000))
    else Except.error "Duration must be a positive number"
  | none => inferClaimed a

/-- The amended decision policy: a supplied nonzero manual duration always
wins; a supplied zero is treated as absent (JS falsiness of `0`). -/
def amendedDurationDecision (manual : Option ℚ) (a : AnimationInfo) : Except String JSNum :=
  match manual with
  | some q =>
    if q ≠ 0 then
      if 0 < q then Except.ok (JSNum.num (qMul q 1000))
      else Except.error "Duration must be a positive number"
    else inferClaimed a
  | none => inferClaimed a

/-- Spec wording of §4.4 applied to the whole document: the claimed total
duration is the maximum over all directives of (start offset + total span),
null when that maximum is zero. -/
def claimedTotalDuration (ds : List AnimDirective) : Option JSNum :=
  if jsMaxList (ds.map endOfClaim) = JSNum.num 0 then none
  else some (jsMaxList (ds.map endOfClaim))

/-- Two explicit-forever directives below the 10-minute ceiling and above it. -/
def exPlaceholder : List AnimDirective :=
  [{ dur := some "5s", begin := none, repeatCount := some "indefinite", repeatDur := none },
   { dur := some "44444s", begin := none, repeatCount := some "indefinite", repeatDur := none }]

/-- Two explicit-forever directives both above the 10-minute ceiling. -/
def exAllPlaceholder : List AnimDirective :=
  [{ dur := some "700s", begin := none, repeatCount := some "indefinite", repeatDur := none },
   { dur := some "900s", begin := none, repeatCount := some "indefinite", repeatDur := none }]

/-- The two finite directives of the finite-reduction example. -/
def exFinitePair : List AnimDirective :=
  [{ dur := some "2s", begin := none, repeatCount := some "3", repeatDur := none },
   { dur := some "1s", begin := some "1s", repeatCount := some "1", repeatDur := none }]

/-- A directive whose `dur` has a digitless numeric part: `parseTime`
returns `NaN`, not the null sentinel. -/
def exNanDirective : AnimDirective :=
  { dur := some ".s", begin := none, repeatCount := none, repeatDur := none }

/-- One explicit-forever loop of 4 seconds. -/
def exLoopDoc : List AnimDirective :=
  [{ dur := some "4s", begin := none, repeatCount := some "indefinite", repeatDur := none }]

/-- One explicit-forever loop of 76 seconds. -/
def exLoop76 : List AnimDirective :=
  [{ dur := some "76s", begin := none, repeatCount := some "indefinite", repeatDur := none }]

/-- Infinite directives with no positive parseable base duration. -/
def exUndetectable : List AnimDirective :=
  [{ dur := some "indefinite", begin := none, repeatCount := none, repeatDur := none },
   { dur := none, begin := none, repeatCount := some "indefinite", repeatDur := none }]

/-- A two-hour finite-looking directive (span above the one-hour ceiling). -/
def exLongFinite : AnimDirective :=
  { dur := some "7200s", begin := none, repeatCount := none, repeatDur := none }

/-- A plainly finite directive: 2s iteration, 3 repeats, 1s start offset. -/
def exFiniteDirective : AnimDirective :=
  { dur := some "2s", begin := some "1s", repeatCount := some "3", repeatDur := none }

/-- Two directives that differ only in their begin attribute. -/
def dirBeginA : AnimDirective :=
  { dur := some "3s", begin := some "1s", repeatCount := some "indefinite", repeatDur := none }

def dirBeginB : AnimDirective :=
  { dur := some "3s", begin := some "9s", repeatCount := some "indefinite", repeatDur := none }

theorem qAdd_eq (a b : ℚ) : qAdd a b = a + b := by
  have ha : (a.den : ℚ) ≠ 0 := Nat.cast_ne_zero.mpr a.den_nz
  have hb : (b.den : ℚ) ≠ 0 := Nat.cast_ne_zero.mpr b.den_nz
  unfold qAdd
  rw [Rat.mkRat_eq_div]
  push_cast
  conv_rhs => rw [← Rat.num_div_den a, ← Rat.num_div_den b]
  field_simp

theorem qMul_eq (a b : ℚ) : qMul a b = a * b := by
  have ha : (a.den : ℚ) ≠ 0 := Nat.cast_ne_zero.mpr a.den_nz
  have hb : (b.den : ℚ) ≠ 0 := Nat.cast_ne_zero.mpr b.den_nz
  unfold qMul
  rw [Rat.mkRat_eq_div]
  push_cast
  conv_rhs => rw [← Rat.num_div_den a, ← Rat.num_div_den b]
  field_simp

theorem qMax_eq (a b : ℚ) : qMax a b = max a b := (max_def a b).symm

theorem qMin_eq (a b : ℚ) : qMin a b = min a b := (min_def a b).symm

theorem claimedBase_eq (el : AnimDirective) : claimedBase el = baseDurationOf el := by
  unfold claimedBase baseDurationOf
  cases hd : el.dur with
  | none => simp [truthy]
  | some d =>
    by_cases he : d = ""
    · subst he
      simp [truthy]
      decide
    · simp [truthy, he]

theorem claimedStart_eq (el : AnimDirective) : claimedStart el = beginTimeOf el := by
  unfold claimedStart beginTimeOf
  cases hb : el.begin with
  | none =>
    simp [orDefault]
    decide
  | some b =>
    by_cases he : b = ""
    · subst he
      simp [orDefault]
      decide
    · simp [orDefault, he]

theorem claimedCount_eq (el : AnimDirective) : claimedCount el = repeatCountOf el := by
  by_cases hi : el.repeatCount = some "indefinite"
  · unfold claimedCount repeatCountOf
    rw [hi]
    decide
  · by_cases ht : truthy el.repeatCount = true
    · simp [claimedCount, repeatCountOf, ht, hi]
    · simp [claimedCount, repeatCountOf, ht]

theorem claimedSpan_eq (el : AnimDirective) : claimedSpan el = totalSpanOf el := by
  unfold claimedSpan totalSpanOf repeatDurationOf
  rw [claimedBase_eq, claimedCount_eq]
  by_cases hi : el.repeatDur = some "indefinite"
  · rw [hi]
    have ht2 : truthy (some "indefinite") = true := by decide
    have h1 : parseTime "indefinite" = none := by decide
    simp [ht2, h1]
  · by_cases ht : truthy el.repeatDur = true
    · simp [ht, hi]
    · simp [ht]

theorem stepAnim_char (st : AnimState) (d : AnimDirective) :
    stepAnim st d =
      { maxEndTime :=
          match (if (parseAnimationTiming d).isInfinite then none
                 else (parseAnimationTiming d).endTime) with
          | some v => JSNum.max2 st.maxEndTime v
          | none => st.maxEndTime
        hasAnimations := true
        hasInfiniteAnimations :=
          st.hasInfiniteAnimations || (parseAnimationTiming d).isInfinite
        loopDurations := st.loopDurations ++ (loopEntry d).toList
        infiniteLoopDurations :=
          st.infiniteLoopDurations ++ (explicitLoopEntry d).toList } := by
  unfold stepAnim loopEntry explicitLoopEntry
  cases hw : (parseAnimationTiming d).isInfinite with
  | true =>
    cases hb : (parseAnimationTiming d).baseDuration with
    | none => simp [hw, hb]
    | some v =>
      cases hg : JSNum.gt v (JSNum.num 0) with
      | false => simp [hw, hb, hg]
      | true =>
        cases he : (parseAnimationTiming d).isExplicitInfinite with
        | false => simp [hw, hb, hg, he]
        | true => simp [hw, hb, hg, he]
  | false =>
    cases he : (parseAnimationTiming d).endTime with
    | none => simp [hw, he]
    | some v => simp [hw, he]

theorem foldl_stepAnim (ds : List AnimDirective) (st : AnimState) :
    ds.foldl stepAnim st =
      { maxEndTime := (finiteEnds ds).foldl JSNum.max2 st.maxEndTime
        hasAnimations := st.hasAnimations || !ds.isEmpty
        hasInfiniteAnimations := st.hasInfiniteAnimations || anyInfinite ds
        loopDurations := st.loopDurations ++ collectedLoops ds
        infiniteLoopDurations := st.infiniteLoopDurations ++ collectedExplicit ds } := by
  induction ds generalizing st with
  | nil => simp [finiteEnds, anyInfinite, collectedLoops, collectedExplicit]
  | cons d rest ih =>
    rw [List.foldl_cons, stepAnim_char, ih]
    have hfe : finiteEnds (d :: rest) =
        ((if (parseAnimationTiming d).isInfinite then none
          else (parseAnimationTiming d).endTime).toList) ++ finiteEnds rest := by
      unfold finiteEnds
      rw [List.filterMap_cons]
      cases (if (parseAnimationTiming d).isInfinite then none
             else (parseAnimationTiming d).endTime) <;> simp
    have hcl : collectedLoops (d :: rest) = (loopEntry d).toList ++ collectedLoops rest := by
      unfold collectedLoops
      rw [List.filterMap_cons]
      cases loopEntry d <;> simp
    have hce : collectedExplicit (d :: rest) =
        (explicitLoopEntry d).toList ++ collectedExplicit rest := by
      unfold collectedExplicit
      rw [List.filterMap_cons]
      cases explicitLoopEntry d <;> simp
    rw [hfe, hcl, hce]
    cases hme : (if (parseAnimationTiming d).isInfinite then none
                 else (parseAnimationTiming d).endTime) with
    | none =>
      simp [anyInfinite, Bool.or_assoc, List.append_assoc]
    | some v =>
      simp [anyInfinite, Bool.or_assoc, List.append_assoc]

/-- The output of `analyzeAnimations` in terms of the collectors. -/
theorem analyzeAnimations_eq (ds : List AnimDirective) :
    analyzeAnimations ds =
      { hasAnimations := !ds.isEmpty
        duration :=
          if !ds.isEmpty && !anyInfinite ds &&
              JSNum.gt ((finiteEnds ds).foldl JSNum.max2 (JSNum.num 0)) (JSNum.num 0)
          then some ((finiteEnds ds).foldl JSNum.max2 (JSNum.num 0)) else none
        hasInfiniteAnimations := anyInfinite ds
        loopDuration :=
          if anyInfinite ds && !(collectedLoops ds).isEmpty then
            if !(collectedExplicit ds).isEmpty then
              if !((collectedExplicit ds).filter
                    (fun d => JSNum.le d (JSNum.num 600000))).isEmpty then
                some (jsMaxList ((collectedExplicit ds).filter
                  (fun d => JSNum.le d (JSNum.num 600000))))
              else some (jsMinList (collectedExplicit ds))
            else some (jsMaxList (collectedLoops ds))
          else none } := by
  unfold analyzeAnimations
  rw [foldl_stepAnim]
  simp

/-! ## Range facts about parsed values -/
theorem digitDot_ne {c x : Char} (h : isDigitDot c = true) (hx : isDigitDot x = false) :
    c ≠ x := by
  rintro rfl
  rw [h] at hx
  exact Bool.noConfusion hx

theorem ws_false_of_digitDot {c : Char} (h : isDigitDot c = true) :
    c.isWhitespace = false := by
  cases hb : c.isWhitespace with
  | false => rfl
  | true =>
    exfalso
    simp only [Char.isWhitespace, Bool.or_eq_true, decide_eq_true_eq] at hb
    rcases hb with ((h1 | h2) | h3) | h4
    · subst h1; revert h; decide
    · subst h2; revert h; decide
    · subst h3; revert h; decide
    · subst h4; revert h; decide

theorem intVal_nonneg (l : List Char) : 0 ≤ intVal l := by
  unfold intVal
  exact Nat.cast_nonneg _

theorem fracVal_nonneg (l : List Char) : 0 ≤ fracVal l := by
  unfold fracVal
  rw [Rat.mkRat_eq_div]
  positivity

theorem zpow10_pos (e : ℤ) : 0 < zpow10 e := by
  cases e with
  | ofNat n =>
    simp only [zpow10]
    positivity
  | negSucc n =>
    simp only [zpow10]
    rw [Rat.mkRat_eq_div]
    positivity

theorem parseSigned_digitDot_range (body : List Char) (hb : body.all isDigitDot = true) :
    parseSigned 1 body = JSNum.nan ∨
      ∃ q : ℚ, parseSigned 1 body = JSNum.num q ∧ 0 ≤ q := by
  cases body with
  | nil =>
    left
    decide
  | cons c t =>
    have hc : isDigitDot c = true := by
      rw [List.all_cons, Bool.and_eq_true] at hb
      exact hb.1
    have hinf : ¬((c :: t).take 8 = ['I', 'n', 'f', 'i', 'n', 'i', 't', 'y']) := by
      intro hcon
      rw [show (8 : ℕ) = 7 + 1 from rfl, List.take_succ_cons] at hcon
      exact digitDot_ne hc (by decide) (List.cons.inj hcon).1
    unfold parseSigned
    rw [if_neg hinf]
    by_cases hz : (floatParts (c :: t)).1 = [] ∧ (floatParts (c :: t)).2.1 = []
    · rw [if_pos hz]
      left
      rfl
    · rw [if_neg hz]
      right
      refine ⟨_, rfl, ?_⟩
      rw [qMul_eq, qMul_eq, qAdd_eq]
      have h1 := intVal_nonneg (floatParts (c :: t)).1
      have h2 := fracVal_nonneg (floatParts (c :: t)).2.1
      have h3 := le_of_lt (zpow10_pos (expPart (floatParts (c :: t)).2.2))
      have h4 : (0 : ℚ) ≤ 1 * (intVal (floatParts (c :: t)).1 + fracVal (floatParts (c :: t)).2.1) := by
        rw [one_mul]
        exact add_nonneg h1 h2
      exact mul_nonneg h4 h3

theorem dropWhile_ws_of_digitDot (p : List Char) (hp : p.all isDigitDot = true) :
    p.dropWhile Char.isWhitespace = p := by
  cases p with
  | nil => rfl
  | cons c t =>
    have hc : isDigitDot c = true := by
      rw [List.all_cons, Bool.and_eq_true] at hp
      exact hp.1
    simp [List.dropWhile, ws_false_of_digitDot hc]

theorem jsParseFloat_digitDot_range (p : List Char) (hp : p.all isDigitDot = true) :
    jsParseFloat (String.mk p) = JSNum.nan ∨
      ∃ q : ℚ, jsParseFloat (String.mk p) = JSNum.num q ∧ 0 ≤ q := by
  cases p with
  | nil => left; rfl
  | cons c t =>
    have hc : isDigitDot c = true := by
      rw [List.all_cons, Bool.and_eq_true] at hp
      exact hp.1
    have hstep : jsParseFloat (String.mk (c :: t)) = parseSigned 1 (c :: t) := by
      unfold jsParseFloat
      have hdrop : (String.mk (c :: t)).data.dropWhile Char.isWhitespace = c :: t := by
        have : (String.mk (c :: t)).data = c :: t := rfl
        rw [this]
        simp [List.dropWhile, ws_false_of_digitDot hc]
      rw [hdrop]
      show (if c = '+' then parseSigned 1 t
            else if c = '-' then parseSigned (-1) t
            else parseSigned 1 (c :: t)) = parseSigned 1 (c :: t)
      rw [if_neg (digitDot_ne hc (by decide)), if_neg (digitDot_ne hc (by decide))]
    rw [hstep]
    exact parseSigned_digitDot_range (c :: t) hp

theorem numValue_range (p : List Char) (k : ℚ) (hk : 0 ≤ k) (v : JSNum)
    (h : numValue p (JSNum.num k) = some v) :
    v = JSNum.nan ∨ ∃ q : ℚ, v = JSNum.num q ∧ 0 ≤ q := by
  unfold numValue at h
  by_cases hcond : p ≠ [] ∧ p.all isDigitDot = true
  · rw [if_pos hcond] at h
    have hv : v = JSNum.mul (jsParseFloat (String.mk p)) (JSNum.num k) :=
      (Option.some.inj h).symm
    rcases jsParseFloat_digitDot_range p hcond.2 with hnan | ⟨q, hq, hq0⟩
    · left
      rw [hv, hnan]
      rfl
    · right
      refine ⟨qMul q k, ?_, ?_⟩
      · rw [hv, hq]
        rfl
      · rw [qMul_eq]
        exact mul_nonneg hq0 hk
  · rw [if_neg hcond] at h
    exact absurd h (by simp)

theorem parseTime_range (s : String) (v : JSNum) (h : parseTime s = some v) :
    v = JSNum.nan ∨ ∃ q : ℚ, v = JSNum.num q ∧ 0 ≤ q := by
  unfold parseTime at h
  split at h
  · split at h
    · split at h
      · split at h
        · exact numValue_range _ 1 (by norm_num) v h
        · exact numValue_range _ 1000 (by norm_num) v h
      · exact absurd h (by simp)
    · exact absurd h (by simp)
  · exact absurd h (by simp)

theorem baseDurationOf_range (el : AnimDirective) :
    baseDurationOf el = JSNum.nan ∨
      ∃ q : ℚ, baseDurationOf el = JSNum.num q ∧ 0 ≤ q := by
  unfold baseDurationOf
  by_cases ht : truthy el.dur = true
  · rw [if_pos ht]
    cases hp : parseTime (el.dur.getD "") with
    | none =>
      right
      exact ⟨0, rfl, le_refl 0⟩
    | some v =>
      rcases parseTime_range _ v hp with hnan | ⟨q, hq, hq0⟩
      · left; exact hnan
      · right; exact ⟨q, hq, hq0⟩
  · rw [if_neg ht]
    right
    exact ⟨0, rfl, le_refl 0⟩

theorem window_baseDuration_eq (el : AnimDirective) (b : JSNum)
    (h : (parseAnimationTiming el).baseDuration = some b) : b = baseDurationOf el := by
  unfold parseAnimationTiming at h
  split at h
  · exact absurd h (by simp)
  · split at h
    · exact (Option.some.inj h).symm
    · split at h
      · exact (Option.some.inj h).symm
      · split at h
        · exact (Option.some.inj h).symm
        · exact (Option.some.inj h).symm

theorem gt_zero_posnum {v : JSNum}
    (hrange : v = JSNum.nan ∨ ∃ q : ℚ, v = JSNum.num q ∧ 0 ≤ q)
    (hgt : JSNum.gt v (JSNum.num 0) = true) : PosNum v := by
  rcases hrange with hnan | ⟨q, hq, _⟩
  · rw [hnan] at hgt
    exact absurd hgt (by decide)
  · refine ⟨q, hq, ?_⟩
    rw [hq] at hgt
    simpa [JSNum.gt] using hgt

theorem loopEntry_posnum (el : AnimDirective) (v : JSNum) (h : loopEntry el = some v) :
    PosNum v := by
  unfold loopEntry at h
  split at h
  · split at h
    · rename_i b hb
      split at h
      · rename_i hgt
        have hv : b = v := Option.some.inj h
        subst hv
        exact gt_zero_posnum (window_baseDuration_eq el b hb ▸ baseDurationOf_range el) hgt
      · exact absurd h (by simp)
    · exact absurd h (by simp)
  · exact absurd h (by simp)

theorem explicitLoopEntry_sub (el : AnimDirective) (v : JSNum)
    (h : explicitLoopEntry el = some v) : loopEntry el = some v := by
  unfold explicitLoopEntry at h
  unfold loopEntry
  split at h
  · rename_i hinf
    rw [if_pos hinf]
    split at h
    · split at h
      · rename_i hgt
        split at h
        · rw [if_pos hgt]
          exact h
        · exact absurd h (by simp)
      · exact absurd h (by simp)
    · exact absurd h (by simp)
  · exact absurd h (by simp)

theorem collectedLoops_posnum (ds : List AnimDirective) (v : JSNum)
    (h : v ∈ collectedLoops ds) : PosNum v := by
  unfold collectedLoops at h
  rcases List.mem_filterMap.mp h with ⟨el, _, hentry⟩
  exact loopEntry_posnum el v hentry

theorem collectedExplicit_posnum (ds : List AnimDirective) (v : JSNum)
    (h : v ∈ collectedExplicit ds) : PosNum v := by
  unfold collectedExplicit at h
  rcases List.mem_filterMap.mp h with ⟨el, _, hentry⟩
  exact loopEntry_posnum el v (explicitLoopEntry_sub el v hentry)

theorem max2_posnum {a b : JSNum} (ha : PosNum a) (hb : PosNum b) :
    PosNum (JSNum.max2 a b) := by
  rcases ha with ⟨x, hx, hx0⟩
  rcases hb with ⟨y, hy, hy0⟩
  subst hx
  subst hy
  refine ⟨qMax x y, rfl, ?_⟩
  rw [qMax_eq]
  exact lt_max_of_lt_left hx0

theorem min2_posnum {a b : JSNum} (ha : PosNum a) (hb : PosNum b) :
    PosNum (JSNum.min2 a b) := by
  rcases ha with ⟨x, hx, hx0⟩
  rcases hb with ⟨y, hy, hy0⟩
  subst hx
  subst hy
  refine ⟨qMin x y, rfl, ?_⟩
  rw [qMin_eq]
  exact lt_min hx0 hy0

theorem foldl_max2_posnum :
    ∀ (l : List JSNum) (acc : JSNum), (∀ v ∈ l, PosNum v) → PosNum acc →
      PosNum (l.foldl JSNum.max2 acc) := by
  intro l
  induction l with
  | nil => exact fun acc _ hacc => hacc
  | cons x xs ih =>
    intro acc hl hacc
    rw [List.foldl_cons]
    exact ih (JSNum.max2 acc x) (fun v hv => hl v (List.mem_cons_of_mem x hv))
      (max2_posnum hacc (hl x (List.mem_cons_self x xs)))

theorem foldl_min2_posnum :
    ∀ (l : List JSNum) (acc : JSNum), (∀ v ∈ l, PosNum v) → PosNum acc →
      PosNum (l.foldl JSNum.min2 acc) := by
  intro l
  induction l with
  | nil => exact fun acc _ hacc => hacc
  | cons x xs ih =>
    intro acc hl hacc
    rw [List.foldl_cons]
    exact ih (JSNum.min2 acc x) (fun v hv => hl v (List.mem_cons_of_mem x hv))
      (min2_posnum hacc (hl x (List.mem_cons_self x xs)))

theorem jsMaxList_posnum (l : List JSNum) (hne : l ≠ [])
    (hl : ∀ v ∈ l, PosNum v) : PosNum (jsMaxList l) := by
  cases l with
  | nil => exact absurd rfl hne
  | cons x xs =>
    unfold jsMaxList
    rw [List.foldl_cons]
    have hx : PosNum x := hl x (List.mem_cons_self x xs)
    have hstep : JSNum.max2 JSNum.ninf x = x := by
      rcases hx with ⟨q, hq, _⟩
      rw [hq]
      rfl
    rw [hstep]
    exact foldl_max2_posnum xs x (fun v hv => hl v (List.mem_cons_of_mem x hv)) hx

theorem jsMinList_posnum (l : List JSNum) (hne : l ≠ [])
    (hl : ∀ v ∈ l, PosNum v) : PosNum (jsMinList l) := by
  cases l with
  | nil => exact absurd rfl hne
  | cons x xs =>
    unfold jsMinList
    rw [List.foldl_cons]
    have hx : PosNum x := hl x (List.mem_cons_self x xs)
    have hstep : JSNum.min2 JSNum.inf x = x := by
      rcases hx with ⟨q, hq, _⟩
      rw [hq]
      rfl
    rw [hstep]
    exact foldl_min2_posnum xs x (fun v hv => hl v (List.mem_cons_of_mem x hv)) hx

/-- Any non-null `loopDuration` produced by the analyzer is a strictly
positive finite number. -/
theorem loopDuration_posnum (ds : List AnimDirective) (v : JSNum)
    (h : (analyzeAnimations ds).loopDuration = some v) : PosNum v := by
  rw [analyzeAnimations_eq] at h
  simp only at h
  split at h
  · rename_i hcond
    split at h
    · rename_i hexp
      split at h
      · rename_i hfil
        have hv := Option.some.inj h
        subst hv
        apply jsMaxList_posnum
        · intro hcon
          rw [hcon] at hfil
          exact absurd hfil (by decide)
        · intro w hw
          exact collectedExplicit_posnum ds w (List.mem_of_mem_filter hw)
      · have hv := Option.some.inj h
        subst hv
        apply jsMinList_posnum
        · intro hcon
          rw [hcon] at hexp
          exact absurd hexp (by decide)
        · intro w hw
          exact collectedExplicit_posnum ds w hw
    · have hv := Option.some.inj h
      subst hv
      have hc2 : (!(collectedLoops ds).isEmpty) = true :=
        ((Bool.and_eq_true _ _).mp hcond).2
      apply jsMaxList_posnum
      · intro hcon
        rw [hcon] at hc2
        exact absurd hc2 (by decide)
      · intro w hw
        exact collectedLoops_posnum ds w hw
  · exact absurd h (by simp)

/-! ## Finite windows -/
/-- A directive whose window is finite hit no sentinel, its span passed the
one-hour test, and its end time is start + span. -/
theorem window_finite_char (el : AnimDirective)
    (h : (parseAnimationTiming el).isInfinite = false) :
    el.dur ≠ some "indefinite" ∧ el.repeatCount ≠ some "indefinite" ∧
      el.repeatDur ≠ some "indefinite" ∧
      JSNum.gt (totalSpanOf el) (JSNum.num 3600000) = false ∧
      (parseAnimationTiming el).endTime =
        some (JSNum.add (beginTimeOf el) (totalSpanOf el)) := by
  by_cases h1 : el.dur = some "indefinite"
  · unfold parseAnimationTiming at h
    rw [if_pos h1] at h
    simp at h
  by_cases h2 : el.repeatCount = some "indefinite"
  · unfold parseAnimationTiming at h
    rw [if_neg h1, if_pos h2] at h
    simp at h
  by_cases h3 : el.repeatDur = some "indefinite"
  · unfold parseAnimationTiming at h
    rw [if_neg h1, if_neg h2, if_pos h3] at h
    simp at h
  by_cases h4 : JSNum.gt (totalSpanOf el) (JSNum.num 3600000) = true
  · unfold parseAnimationTiming at h
    rw [if_neg h1, if_neg h2, if_neg h3, if_pos h4] at h
    simp at h
  refine ⟨h1, h2, h3, Bool.eq_false_iff.mpr h4, ?_⟩
  unfold parseAnimationTiming
  rw [if_neg h1, if_neg h2, if_neg h3, if_neg h4]

theorem beginTimeOf_range (el : AnimDirective) :
    beginTimeOf el = JSNum.nan ∨
      ∃ q : ℚ, beginTimeOf el = JSNum.num q ∧ 0 ≤ q := by
  unfold beginTimeOf
  cases hp : parseTime (orDefault el.begin "0s") with
  | none =>
    right
    exact ⟨0, rfl, le_refl 0⟩
  | some v => exact parseTime_range _ v hp

theorem gt_zero_cases {v : JSNum} (h : JSNum.gt v (JSNum.num 0) = true) :
    v = JSNum.inf ∨ ∃ q : ℚ, v = JSNum.num q ∧ 0 < q := by
  cases v with
  | nan => exact absurd h (by decide)
  | inf => exact Or.inl rfl
  | ninf => exact absurd h (by decide)
  | num q =>
    right
    refine ⟨q, rfl, ?_⟩
    simpa [JSNum.gt] using h

theorem repeatCountOf_range (el : AnimDirective) :
    repeatCountOf el = JSNum.inf ∨
      ∃ q : ℚ, repeatCountOf el = JSNum.num q ∧ 0 < q := by
  unfold repeatCountOf
  by_cases ht : truthy el.repeatCount = true ∧ el.repeatCount ≠ some "indefinite"
  · rw [if_pos ht]
    by_cases hg : JSNum.gt (jsParseFloat (el.repeatCount.getD "")) (JSNum.num 0) = true
    · simp only [hg, if_true]
      exact gt_zero_cases hg
    · simp only [hg, if_false]
      right
      exact ⟨1, rfl, one_pos⟩
  · rw [if_neg ht]
    right
    exact ⟨1, rfl, one_pos⟩

theorem repeatDurationOf_range (el : AnimDirective) (v : JSNum)
    (h : repeatDurationOf el = some v) :
    v = JSNum.nan ∨ ∃ q : ℚ, v = JSNum.num q ∧ 0 ≤ q := by
  unfold repeatDurationOf at h
  split at h
  · exact parseTime_range _ v h
  · exact absurd h (by simp)

theorem totalSpanOf_range (el : AnimDirective) :
    totalSpanOf el = JSNum.nan ∨ totalSpanOf el = JSNum.inf ∨
      ∃ q : ℚ, totalSpanOf el = JSNum.num q ∧ 0 ≤ q := by
  unfold totalSpanOf
  cases hr : repeatDurationOf el with
  | some v =>
    rcases repeatDurationOf_range el v hr with hnan | ⟨q, hq, hq0⟩
    · left; exact hnan
    · right; right; exact ⟨q, hq, hq0⟩
  | none =>
    rcases baseDurationOf_range el with hb | ⟨b, hb, hb0⟩ <;>
      rcases repeatCountOf_range el with hc | ⟨c, hc, hc0⟩
    · rw [hb, hc]
      left
      rfl
    · rw [hb, hc]
      left
      rfl
    · rw [hb, hc]
      rcases lt_or_eq_of_le hb0 with hb1 | hb1
      · right; left
        simp [JSNum.mul, hb1]
      · left
        simp [JSNum.mul, ← hb1]
    · rw [hb, hc]
      right; right
      refine ⟨qMul b c, rfl, ?_⟩
      rw [qMul_eq]
      exact mul_nonneg hb0 (le_of_lt hc0)

/-- The end time of a finite window is `NaN` or a nonnegative number. -/
theorem finiteEnd_range (el : AnimDirective)
    (h : (parseAnimationTiming el).isInfinite = false) :
    JSNum.add (beginTimeOf el) (totalSpanOf el) = JSNum.nan ∨
      ∃ q : ℚ, JSNum.add (beginTimeOf el) (totalSpanOf el) = JSNum.num q ∧ 0 ≤ q := by
  have hno := (window_finite_char el h).2.2.2.1
  have hspan : totalSpanOf el = JSNum.nan ∨
      ∃ q : ℚ, totalSpanOf el = JSNum.num q ∧ 0 ≤ q := by
    rcases totalSpanOf_range el with h1 | h2 | h3
    · exact Or.inl h1
    · rw [h2] at hno
      exact absurd hno (by decide)
    · exact Or.inr h3
  rcases beginTimeOf_range el with hb | ⟨b, hb, hb0⟩
  · rw [hb]
    left
    cases totalSpanOf el <;> rfl
  · rcases hspan with hs | ⟨q, hs, hs0⟩
    · rw [hb, hs]
      left
      rfl
    · rw [hb, hs]
      right
      refine ⟨qAdd b q, rfl, ?_⟩
      rw [qAdd_eq]
      exact add_nonneg hb0 hs0

/-- With every window finite, `finiteEnds` is the per-directive
start + span map. -/
theorem finiteEnds_eq_map (ds : List AnimDirective)
    (h : ∀ el ∈ ds, (parseAnimationTiming el).isInfinite = false) :
    finiteEnds ds = ds.map fun el => JSNum.add (beginTimeOf el) (totalSpanOf el) := by
  induction ds with
  | nil => rfl
  | cons d rest ih =>
    have hd := h d (List.mem_cons_self d rest)
    have hend := (window_finite_char d hd).2.2.2.2
    unfold finiteEnds
    rw [List.filterMap_cons, List.map_cons]
    rw [if_neg (by rw [hd]; exact Bool.false_ne_true), hend]
    rw [← ih (fun el hel => h el (List.mem_cons_of_mem d hel))]
    rfl

theorem foldl_max2_zero_eq (l : List JSNum) (hne : l ≠ [])
    (hl : ∀ v ∈ l, v = JSNum.nan ∨ ∃ q : ℚ, v = JSNum.num q ∧ 0 ≤ q) :
    l.foldl JSNum.max2 (JSNum.num 0) = jsMaxList l := by
  cases l with
  | nil => exact absurd rfl hne
  | cons x xs =>
    unfold jsMaxList
    rw [List.foldl_cons, List.foldl_cons]
    have hx : JSNum.max2 (JSNum.num 0) x = JSNum.max2 JSNum.ninf x := by
      rcases hl x (List.mem_cons_self x xs) with hnan | ⟨q, hq, hq0⟩
      · rw [hnan]
        rfl
      · rw [hq]
        show JSNum.num (qMax 0 q) = JSNum.num q
        rw [qMax_eq, max_eq_right hq0]
    rw [hx]

theorem window_begin_invariant (d r p b1 b2 : Option String) :
    (parseAnimationTiming ⟨d, b1, r, p⟩).isInfinite =
        (parseAnimationTiming ⟨d, b2, r, p⟩).isInfinite ∧
      (parseAnimationTiming ⟨d, b1, r, p⟩).baseDuration =
        (parseAnimationTiming ⟨d, b2, r, p⟩).baseDuration ∧
      (parseAnimationTiming ⟨d, b1, r, p⟩).isExplicitInfinite =
        (parseAnimationTiming ⟨d, b2, r, p⟩).isExplicitInfinite ∧
      ((parseAnimationTiming ⟨d, b1, r, p⟩).isInfinite = true →
        parseAnimationTiming ⟨d, b1, r, p⟩ = parseAnimationTiming ⟨d, b2, r, p⟩) := by
  have hbase : baseDurationOf ⟨d, b1, r, p⟩ = baseDurationOf ⟨d, b2, r, p⟩ := rfl
  have hspan : totalSpanOf ⟨d, b1, r, p⟩ = totalSpanOf ⟨d, b2, r, p⟩ := rfl
  unfold parseAnimationTiming
  by_cases h1 : d = some "indefinite"
  · simp [h1]
  by_cases h2 : r = some "indefinite"
  · simp [h1, h2]
    rfl
  by_cases h3 : p = some "indefinite"
  · simp [h1, h2, h3]
    rfl
  by_cases h4 :
      JSNum.gt (totalSpanOf ⟨d, b1, r, p⟩) (JSNum.num 3600000) = true
  · have h4b : JSNum.gt (totalSpanOf ⟨d, b2, r, p⟩) (JSNum.num 3600000) = true :=
      hspan ▸ h4
    simp [h1, h2, h3, h4, h4b, hbase]
  · have h4b : ¬JSNum.gt (totalSpanOf ⟨d, b2, r, p⟩) (JSNum.num 3600000) = true :=
      fun hc => h4 (hspan.symm ▸ hc)
    simp [h1, h2, h3, h4, h4b, hbase]

theorem loopEntry_begin_invariant (a b : AnimDirective) (hs : sameTiming a b) :
    loopEntry a = loopEntry b := by
  obtain ⟨da, ba, ra, pa⟩ := a
  obtain ⟨db, bb, rb, pb⟩ := b
  obtain ⟨hd, hr, hp⟩ := hs
  simp only at hd hr hp
  subst hd
  subst hr
  subst hp
  obtain ⟨hinf, hbase, hexp, _⟩ := window_begin_invariant da ra pa ba bb
  unfold loopEntry
  rw [hinf, hbase]

theorem explicitLoopEntry_begin_invariant (a b : AnimDirective) (hs : sameTiming a b) :
    explicitLoopEntry a = explicitLoopEntry b := by
  obtain ⟨da, ba, ra, pa⟩ := a
  obtain ⟨db, bb, rb, pb⟩ := b
  obtain ⟨hd, hr, hp⟩ := hs
  simp only at hd hr hp
  subst hd
  subst hr
  subst hp
  obtain ⟨hinf, hbase, hexp, _⟩ := window_begin_invariant da ra pa ba bb
  unfold explicitLoopEntry
  rw [hinf, hbase, hexp]

theorem isInfinite_begin_invariant (a b : AnimDirective) (hs : sameTiming a b) :
    (parseAnimationTiming a).isInfinite = (parseAnimationTiming b).isInfinite := by
  obtain ⟨da, ba, ra, pa⟩ := a
  obtain ⟨db, bb, rb, pb⟩ := b
  obtain ⟨hd, hr, hp⟩ := hs
  simp only at hd hr hp
  subst hd
  subst hr
  subst hp
  exact (window_begin_invariant da ra pa ba bb).1

theorem collectors_begin_invariant (ds1 ds2 : List AnimDirective)
    (h : List.Forall₂ sameTiming ds1 ds2) :
    anyInfinite ds1 = anyInfinite ds2 ∧
      collectedLoops ds1 = collectedLoops ds2 ∧
      collectedExplicit ds1 = collectedExplicit ds2 := by
  induction h with
  | nil => exact ⟨rfl, rfl, rfl⟩
  | cons hab hrest ih =>
    rename_i a b as bs
    refine ⟨?_, ?_, ?_⟩
    · unfold anyInfinite
      rw [List.any_cons, List.any_cons]
      rw [isInfinite_begin_invariant a b hab]
      unfold anyInfinite at ih
      rw [ih.1]
    · unfold collectedLoops
      rw [List.filterMap_cons, List.filterMap_cons, loopEntry_begin_invariant a b hab]
      unfold collectedLoops at ih
      rw [ih.2.1]
    · unfold collectedExplicit
      rw [List.filterMap_cons, List.filterMap_cons,
        explicitLoopEntry_begin_invariant a b hab]
      unfold collectedExplicit at ih
      rw [ih.2.2]

/-! ## Nonemptiness transfer between collectors -/
theorem explicitLoopEntry_isInf (el : AnimDirective) (v : JSNum)
    (h : explicitLoopEntry el = some v) : (parseAnimationTiming el).isInfinite = true := by
  unfold explicitLoopEntry at h
  split at h
  · rename_i hinf
    exact hinf
  · exact absurd h (by simp)

theorem collectedExplicit_ne_nil_facts (ds : List AnimDirective)
    (h : collectedExplicit ds ≠ []) :
    anyInfinite ds = true ∧ collectedLoops ds ≠ [] := by
  have hex : ∃ v, v ∈ collectedExplicit ds := by
    cases hc : collectedExplicit ds with
    | nil => exact absurd hc h
    | cons x xs => exact ⟨x, hc ▸ List.mem_cons_self x xs⟩
  rcases hex with ⟨v, hv⟩
  unfold collectedExplicit at hv
  rcases List.mem_filterMap.mp hv with ⟨el, hmem, hentry⟩
  constructor
  · unfold anyInfinite
    rw [List.any_eq_true]
    exact ⟨el, hmem, explicitLoopEntry_isInf el v hentry⟩
  · intro hcon
    unfold collectedLoops at hcon
    have := (List.filterMap_eq_nil_iff.mp hcon) el hmem
    rw [explicitLoopEntry_sub el v hentry] at this
    exact Option.noConfusion this

theorem takeWhile_all {f : Char → Bool} :
    ∀ l : List Char, l.all f = true → l.takeWhile f = l := by
  intro l hl
  induction l with
  | nil => rfl
  | cons c t ih =>
    rw [List.all_cons, Bool.and_eq_true] at hl
    simp [List.takeWhile_cons, hl.1, ih hl.2]

theorem dropWhile_all {f : Char → Bool} :
    ∀ l : List Char, l.all f = true → l.dropWhile f = [] := by
  intro l hl
  induction l with
  | nil => rfl
  | cons c t ih =>
    rw [List.all_cons, Bool.and_eq_true] at hl
    simp [List.dropWhile_cons, hl.1, ih hl.2]

theorem dropWhile_head_false {f : Char → Bool} :
    ∀ (l : List Char) (c : Char) (t : List Char),
      l.dropWhile f = c :: t → f c = false := by
  intro l
  induction l with
  | nil =>
    intro c t h
    exact absurd h (by simp)
  | cons a l' ih =>
    intro c t h
    rw [List.dropWhile_cons] at h
    by_cases hfa : f a = true
    · rw [if_pos hfa] at h
      exact ih c t h
    · rw [if_neg hfa] at h
      have ha : a = c := (List.cons.inj h).1
      rw [← ha]
      exact Bool.eq_false_iff.mpr hfa

theorem mem_of_mem_dropWhile {f : Char → Bool} {l : List Char} {c : Char}
    (h : c ∈ l.dropWhile f) : c ∈ l := by
  rw [← List.takeWhile_append_dropWhile (p := f) (l := l)]
  exact List.mem_append_right _ h

theorem fracVal_nil : fracVal [] = 0 := by decide

theorem zpow10_zero : zpow10 0 = 1 := by decide

/-- A digit-dot character that is not a digit is the dot. -/
theorem eq_dot_of_digitDot_not_digit {c : Char} (h1 : isDigitDot c = true)
    (h2 : c.isDigit = false) : c = '.' := by
  unfold isDigitDot at h1
  rw [h2, Bool.false_or] at h1
  exact eq_of_beq h1

/-- JS `parseFloat` on a nonempty digit/dot run is `parseSigned` on the run
itself: no whitespace to skip, no sign, no `Infinity`. -/
theorem jsParseFloat_digitDot_eq (p : List Char) (hp : p ≠ [])
    (hall : p.all isDigitDot = true) :
    jsParseFloat (String.mk p) = parseSigned 1 p := by
  cases p with
  | nil => exact absurd rfl hp
  | cons c t =>
    have hc : isDigitDot c = true := by
      rw [List.all_cons, Bool.and_eq_true] at hall
      exact hall.1
    unfold jsParseFloat
    have hdrop : (String.mk (c :: t)).data.dropWhile Char.isWhitespace = c :: t := by
      have hd : (String.mk (c :: t)).data = c :: t := rfl
      rw [hd]
      simp [List.dropWhile, ws_false_of_digitDot hc]
    rw [hdrop]
    show (if c = '+' then parseSigned 1 t
          else if c = '-' then parseSigned (-1) t
          else parseSigned 1 (c :: t)) = parseSigned 1 (c :: t)
    rw [if_neg (digitDot_ne hc (by decide)), if_neg (digitDot_ne hc (by decide))]

/-- On a well-formed decimal numeral, JS `parseFloat` computes the numeral
value. -/
theorem jsParseFloat_numeral (p : List Char) (h : isNumeral p = true) :
    jsParseFloat (String.mk p) = JSNum.num (numeralVal p) := by
  unfold isNumeral at h
  rw [Bool.and_eq_true, Bool.and_eq_true] at h
  obtain ⟨⟨hall, hcount⟩, hany⟩ := h
  rw [decide_eq_true_eq] at hcount
  have hp : p ≠ [] := by
    intro hcon
    rw [hcon] at hany
    exact absurd hany (by decide)
  rw [jsParseFloat_digitDot_eq p hp hall]
  have hinf : ¬(p.take 8 = ['I', 'n', 'f', 'i', 'n', 'i', 't', 'y']) := by
    cases p with
    | nil => exact absurd rfl hp
    | cons c t =>
      intro hcon
      rw [show (8 : ℕ) = 7 + 1 from rfl, List.take_succ_cons] at hcon
      have hc : isDigitDot c = true := by
        rw [List.all_cons, Bool.and_eq_true] at hall
        exact hall.1
      exact digitDot_ne hc (by decide) (List.cons.inj hcon).1
  unfold parseSigned
  rw [if_neg hinf]
  cases hdw : p.dropWhile Char.isDigit with
  | nil =>
    have htw : p.takeWhile Char.isDigit = p := by
      have := List.takeWhile_append_dropWhile (p := Char.isDigit) (l := p)
      rw [hdw, List.append_nil] at this
      exact this
    have hparts : floatParts p = (p, [], []) := by
      unfold floatParts
      rw [hdw, htw]
    rw [hparts]
    rw [if_neg (by simp [hp])]
    unfold numeralVal
    rw [hdw, htw]
    show JSNum.num (qMul (qMul 1 (qAdd (intVal p) (fracVal []))) (zpow10 (expPart []))) =
      JSNum.num (intVal p)
    rw [qMul_eq, qMul_eq, qAdd_eq, fracVal_nil]
    norm_num [expPart, zpow10_zero]
  | cons c0 t0 =>
    have hc0dd : isDigitDot c0 = true := by
      have hmem : c0 ∈ p := mem_of_mem_dropWhile (hdw ▸ List.mem_cons_self c0 t0)
      exact List.all_eq_true.mp hall c0 hmem
    have hc0 : c0 = '.' :=
      eq_dot_of_digitDot_not_digit hc0dd (dropWhile_head_false p c0 t0 hdw)
    subst hc0
    have hsplit : p.takeWhile Char.isDigit ++ '.' :: t0 = p := by
      have := List.takeWhile_append_dropWhile (p := Char.isDigit) (l := p)
      rw [hdw] at this
      exact this
    have ht0dd : t0.all isDigitDot = true := by
      rw [List.all_eq_true]
      intro x hx
      have hmem : x ∈ p := mem_of_mem_dropWhile (hdw ▸ List.mem_cons_of_mem '.' hx)
      exact List.all_eq_true.mp hall x hmem
    have hd1nodot : ('.' : Char) ∉ p.takeWhile Char.isDigit := by
      intro hmem
      have hdig := List.mem_takeWhile_imp hmem
      exact absurd hdig (by decide)
    have hcount0 : t0.count '.' = 0 := by
      rw [← hsplit, List.count_append, List.count_cons_self] at hcount
      omega
    have ht0dig : t0.all Char.isDigit = true := by
      rw [List.all_eq_true]
      intro x hx
      cases hxdig : x.isDigit with
      | true => rfl
      | false =>
        have hxdd := List.all_eq_true.mp ht0dd x hx
        have hxdot : x = '.' := eq_dot_of_digitDot_not_digit hxdd hxdig
        subst hxdot
        rw [List.count_eq_zero] at hcount0
        exact absurd hx hcount0
    have hparts : floatParts p = (p.takeWhile Char.isDigit, t0, []) := by
      unfold floatParts
      rw [hdw]
      show (p.takeWhile Char.isDigit, t0.takeWhile Char.isDigit, t0.dropWhile Char.isDigit) =
        (p.takeWhile Char.isDigit, t0, [])
      rw [takeWhile_all t0 ht0dig, dropWhile_all t0 ht0dig]
    rw [hparts]
    have hnz : ¬(p.takeWhile Char.isDigit = [] ∧ t0 = []) := by
      rintro ⟨h1, h2⟩
      subst h2
      rw [h1] at hsplit
      have hpd : p = ['.'] := by simpa using hsplit.symm
      rw [hpd] at hany
      exact absurd hany (by decide)
    rw [if_neg hnz]
    unfold numeralVal
    rw [hdw]
    show JSNum.num (qMul (qMul 1 (qAdd (intVal (p.takeWhile Char.isDigit)) (fracVal t0)))
        (zpow10 (expPart []))) =
      JSNum.num (intVal (p.takeWhile Char.isDigit) + fracVal t0)
    rw [qMul_eq, qMul_eq, qAdd_eq]
    norm_num [expPart, zpow10_zero]

/-- `parseTime` succeeds exactly on the regex decompositions, producing the
`parseFloat` value of the run scaled by the unit. -/
theorem parseTime_decomposed (p u : List Char) (hp : p ≠ [])
    (hall : p.all isDigitDot = true) (hu : UnitChars u) :
    parseTime (String.mk (p ++ u)) =
      some (JSNum.mul (jsParseFloat (String.mk p)) (JSNum.num (unitScale u))) := by
  obtain ⟨c2, rest2, hpr⟩ : ∃ c2 rest2, p.reverse = c2 :: rest2 := by
    cases hq : p.reverse with
    | nil => exact absurd (by simpa using congrArg List.reverse hq) hp
    | cons x xs => exact ⟨x, xs, rfl⟩
  have hc2mem : c2 ∈ p := by
    rw [← List.mem_reverse, hpr]
    exact List.mem_cons_self c2 rest2
  have hc2 : isDigitDot c2 = true := List.all_eq_true.mp hall c2 hc2mem
  rcases hu with ⟨a, hu1, ha⟩ | ⟨a, b, hu2, ham, hbs⟩
  · subst hu1
    have hrev : (String.mk (p ++ [a])).data.reverse = a :: c2 :: rest2 := by
      show (p ++ [a]).reverse = a :: c2 :: rest2
      rw [List.reverse_append, hpr]
      rfl
    unfold parseTime
    rw [hrev]
    show (if a = 's' ∨ a = 'S' then
            if c2 = 'm' ∨ c2 = 'M' then numValue rest2.reverse (JSNum.num 1)
            else numValue (c2 :: rest2).reverse (JSNum.num 1000)
          else none) =
      some (JSNum.mul (jsParseFloat (String.mk p)) (JSNum.num (unitScale [a])))
    rw [if_pos ha]
    have hc2m : ¬(c2 = 'm' ∨ c2 = 'M') := by
      rintro (hm | hm)
      · exact digitDot_ne hc2 (by decide) hm
      · exact digitDot_ne hc2 (by decide) hm
    rw [if_neg hc2m]
    have hback : (c2 :: rest2).reverse = p := by
      rw [← hpr, List.reverse_reverse]
    rw [hback]
    unfold numValue
    rw [if_pos ⟨hp, hall⟩]
    rfl
  · subst hu2
    have hrev : (String.mk (p ++ [a, b])).data.reverse = b :: a :: p.reverse := by
      show (p ++ [a, b]).reverse = b :: a :: p.reverse
      rw [List.reverse_append]
      rfl
    unfold parseTime
    rw [hrev, hpr]
    show (if b = 's' ∨ b = 'S' then
            if a = 'm' ∨ a = 'M' then numValue (c2 :: rest2).reverse (JSNum.num 1)
            else numValue (a :: c2 :: rest2).reverse (JSNum.num 1000)
          else none) =
      some (JSNum.mul (jsParseFloat (String.mk p)) (JSNum.num (unitScale [a, b])))
    rw [if_pos hbs, if_pos ham]
    have hback : (c2 :: rest2).reverse = p := by
      rw [← hpr, List.reverse_reverse]
    rw [hback]
    unfold numValue
    rw [if_pos ⟨hp, hall⟩]
    rfl

/-- A successful `parseTime` exhibits a regex decomposition of its input. -/
theorem timeShape_of_parseTime_ne_none (s : String) (h : parseTime s ≠ none) :
    TimeShape s := by
  have hdata : s.data = s.data.reverse.reverse := (List.reverse_reverse s.data).symm
  unfold parseTime at h
  split at h
  · rename_i c rest hrev
    split at h
    · rename_i hs
      split at h
      · rename_i c2 rest2
        split at h
        · rename_i hm
          unfold numValue at h
          split at h
          · rename_i hcond
            refine ⟨rest2.reverse, [c2, c], ?_, hcond.1, hcond.2, ?_⟩
            · rw [hdata, hrev]
              simp
            · exact Or.inr ⟨c2, c, rfl, hm, hs⟩
          · exact absurd rfl h
        · rename_i hm
          unfold numValue at h
          split at h
          · rename_i hcond
            refine ⟨(c2 :: rest2).reverse, [c], ?_, hcond.1, hcond.2, ?_⟩
            · rw [hdata, hrev]
              simp
            · exact Or.inl ⟨c, rfl, hs⟩
          · exact absurd rfl h
      · exact absurd rfl h
    · exact absurd rfl h
  · exact absurd rfl h

/-- The claimed negative side of the parser contract, exact on the code: the
null sentinel is returned precisely when the regex does not match. -/
theorem parseTime_eq_none_iff (s : String) : parseTime s = none ↔ ¬TimeShape s := by
  constructor
  · intro hnone hshape
    obtain ⟨p, u, hsplit, hp, hall, hu⟩ := hshape
    have hs : String.mk (p ++ u) = s := by
      rw [← hsplit]
    rw [← hs, parseTime_decomposed p u hp hall hu] at hnone
    exact Option.noConfusion hnone
  · intro hshape
    by_contra hne
    exact hshape (timeShape_of_parseTime_ne_none s hne)

theorem inferDurationMs_eq_claimed (ds : List AnimDirective) :
    inferDurationMs (analyzeAnimations ds) = inferClaimed (analyzeAnimations ds) := by
  unfold inferDurationMs inferClaimed
  by_cases hinf : (analyzeAnimations ds).hasInfiniteAnimations = true
  · rw [if_pos hinf, if_pos hinf]
    cases hl : (analyzeAnimations ds).loopDuration with
    | none => simp [hl]
    | some v =>
      obtain ⟨q, hq, hq0⟩ := loopDuration_posnum ds v hl
      have hgt : JSNum.gt v (JSNum.num 0) = true := by
        rw [hq]
        simpa [JSNum.gt] using hq0
      simp [hl, hgt]
  · rw [if_neg hinf, if_neg hinf]

/-- Invariants of the animation-info record of any analysis. -/
theorem animationInfo_invariants (ds : List AnimDirective) :
    ((analyzeAnimations ds).duration ≠ none →
      (analyzeAnimations ds).hasAnimations = true ∧
        (analyzeAnimations ds).hasInfiniteAnimations = false) ∧
    ((analyzeAnimations ds).loopDuration ≠ none →
      (analyzeAnimations ds).hasInfiniteAnimations = true) := by
  rw [analyzeAnimations_eq]
  simp only
  constructor
  · intro hd
    by_cases hcond : (!ds.isEmpty && !anyInfinite ds &&
        JSNum.gt ((finiteEnds ds).foldl JSNum.max2 (JSNum.num 0)) (JSNum.num 0)) = true
    · rw [Bool.and_eq_true, Bool.and_eq_true] at hcond
      refine ⟨hcond.1.1, ?_⟩
      have := hcond.1.2
      rw [Bool.not_eq_true'] at this
      exact this
    · rw [if_neg hcond] at hd
      exact absurd rfl hd
  · intro hl
    by_cases hcond : (anyInfinite ds && !(collectedLoops ds).isEmpty) = true
    · rw [Bool.and_eq_true] at hcond
      exact hcond.1
    · rw [if_neg hcond] at hl
      exact absurd rfl hl

theorem isEmpty_false_of_ne_nil {α : Type} {l : List α} (h : l ≠ []) :
    l.isEmpty = false := by
  cases l with
  | nil => exact absurd rfl h
  | cons x xs => rfl

/-! ## The claims -/
/-- C1: when at least one explicit-forever base-loop duration was collected,
`loopDuration` is the maximum of the explicit-forever durations at most
600000 ms; if none is below that ceiling, it is the minimum of all
explicit-forever durations — so `dur="700s"`/`dur="900s"` gives 700000 and
`dur="5s"`/`dur="44444s"` gives 5000. -/
theorem loopDuration_explicit_policy :
    (∀ ds : List AnimDirective, collectedExplicit ds ≠ [] →
      (analyzeAnimations ds).loopDuration =
        some (if ((collectedExplicit ds).filter
                  (fun d => JSNum.le d (JSNum.num 600000))).isEmpty
              then jsMinList (collectedExplicit ds)
              else jsMaxList ((collectedExplicit ds).filter
                  (fun d => JSNum.le d (JSNum.num 600000))))) ∧
    (analyzeAnimations exAllPlaceholder).loopDuration = some (JSNum.num 700000) ∧
    (analyzeAnimations exPlaceholder).loopDuration = some (JSNum.num 5000) := by
  refine ⟨?_, by decide, by decide⟩
  intro ds hne
  obtain ⟨hinf, hloops⟩ := collectedExplicit_ne_nil_facts ds hne
  rw [analyzeAnimations_eq]
  simp only
  rw [if_pos (by rw [hinf, isEmpty_false_of_ne_nil hloops]; rfl)]
  rw [if_pos (by rw [isEmpty_false_of_ne_nil hne]; rfl)]
  cases hf : ((collectedExplicit ds).filter
      (fun d => JSNum.le d (JSNum.num 600000))).isEmpty with
  | true => simp [hf]
  | false => simp [hf]

/-- C1 witness: the policy applied to the placeholder-filtering example. -/
theorem loopDuration_explicit_policy_witness :
    collectedExplicit exPlaceholder ≠ [] ∧
    (analyzeAnimations exPlaceholder).loopDuration =
      some (if ((collectedExplicit exPlaceholder).filter
                (fun d => JSNum.le d (JSNum.num 600000))).isEmpty
            then jsMinList (collectedExplicit exPlaceholder)
            else jsMaxList ((collectedExplicit exPlaceholder).filter
                (fun d => JSNum.le d (JSNum.num 600000)))) :=
  ⟨by decide, loopDuration_explicit_policy.1 exPlaceholder (by decide)⟩

/-- C2 counterexample: for the single directive `dur=".s"` (finite window,
`NaN` end time) the claimed total — the maximum of (start + span), null only
when that maximum is zero — is `NaN`, while the code returns null. -/
theorem totalDuration_nan_counterexample :
    (∀ el ∈ [exNanDirective], (parseAnimationTiming el).isInfinite = false) ∧
    ([exNanDirective] : List AnimDirective) ≠ [] ∧
    claimedTotalDuration [exNanDirective] = some JSNum.nan ∧
    (analyzeAnimations [exNanDirective]).duration = none ∧
    claimedTotalDuration [exNanDirective] ≠ (analyzeAnimations [exNanDirective]).duration := by
  refine ⟨by decide, by decide, by decide, by decide, by decide⟩

/-- C2 amended: with at least one directive and no infinite window,
`totalDuration` is the maximum over all directives of (parsed start offset +
total span) when that maximum is a strictly positive number, and null when
the maximum is zero or `NaN`. -/
theorem totalDuration_max_amended (ds : List AnimDirective) (hne : ds ≠ [])
    (hfin : ∀ el ∈ ds, (parseAnimationTiming el).isInfinite = false) :
    (analyzeAnimations ds).duration =
      if JSNum.gt (jsMaxList (ds.map endOfClaim)) (JSNum.num 0)
      then some (jsMaxList (ds.map endOfClaim)) else none := by
  have hanyf : anyInfinite ds = false := by
    cases hh : anyInfinite ds with
    | false => rfl
    | true =>
      exfalso
      unfold anyInfinite at hh
      obtain ⟨el, hmem, htrue⟩ := List.any_eq_true.mp hh
      rw [hfin el hmem] at htrue
      exact Bool.noConfusion htrue
  have hclaim : ds.map endOfClaim =
      ds.map fun el => JSNum.add (beginTimeOf el) (totalSpanOf el) := by
    have hfun : endOfClaim = fun el => JSNum.add (beginTimeOf el) (totalSpanOf el) := by
      funext el
      unfold endOfClaim
      rw [claimedStart_eq, claimedSpan_eq]
    rw [hfun]
  have hfold : (finiteEnds ds).foldl JSNum.max2 (JSNum.num 0) =
      jsMaxList (ds.map endOfClaim) := by
    rw [finiteEnds_eq_map ds hfin, ← hclaim]
    apply foldl_max2_zero_eq
    · intro hcon
      rw [hclaim] at hcon
      exact hne (List.map_eq_nil_iff.mp hcon)
    · intro v hv
      rw [hclaim] at hv
      obtain ⟨el, hmem, hveq⟩ := List.mem_map.mp hv
      rw [← hveq]
      exact finiteEnd_range el (hfin el hmem)
  rw [analyzeAnimations_eq]
  simp only
  rw [hfold, isEmpty_false_of_ne_nil hne, hanyf]
  simp

/-- C2 witness: directive A (dur 2s, repeat 3) with directive B (begin 1s,
dur 1s, repeat 1) yields 6000 ms, matching the claimed maximum. -/
theorem totalDuration_max_amended_witness :
    exFinitePair ≠ [] ∧
    (∀ el ∈ exFinitePair, (parseAnimationTiming el).isInfinite = false) ∧
    (analyzeAnimations exFinitePair).duration =
      (if JSNum.gt (jsMaxList (exFinitePair.map endOfClaim)) (JSNum.num 0)
       then some (jsMaxList (exFinitePair.map endOfClaim)) else none) ∧
    (analyzeAnimations exFinitePair).duration = some (JSNum.num 6000) :=
  ⟨by decide, by decide, totalDuration_max_amended exFinitePair (by decide) (by decide),
    by decide⟩

/-- C3: a directive past the sentinel rules whose computed total span exceeds
3600000 ms resolves to an infinite window, not explicit-forever, with the
parsed base duration retained; `dur="1s" repeatCount="5000"` gives base 1000. -/
theorem long_span_reclassified_infinite :
    (∀ el : AnimDirective, el.dur ≠ some "indefinite" →
      el.repeatCount ≠ some "indefinite" → el.repeatDur ≠ some "indefinite" →
      JSNum.gt (claimedSpan el) (JSNum.num 3600000) = true →
      parseAnimationTiming el =
        { endTime := none, isInfinite := true, baseDuration := some (claimedBase el),
          isExplicitInfinite := false }) ∧
    parseAnimationTiming
        { dur := some "1s", begin := none, repeatCount := some "5000", repeatDur := none } =
      { endTime := none, isInfinite := true, baseDuration := some (JSNum.num 1000),
        isExplicitInfinite := false } := by
  refine ⟨?_, by decide⟩
  intro el h1 h2 h3 h4
  rw [claimedSpan_eq] at h4
  rw [claimedBase_eq]
  unfold parseAnimationTiming
  rw [if_neg h1, if_neg h2, if_neg h3, if_pos h4]

/-- C3 witness: the reclassification applied to `dur="1s" repeatCount="5000"`. -/
theorem long_span_reclassified_infinite_witness :
    ((⟨some "1s", none, some "5000", none⟩ : AnimDirective).dur ≠ some "indefinite") ∧
    ((⟨some "1s", none, some "5000", none⟩ : AnimDirective).repeatCount ≠ some "indefinite") ∧
    ((⟨some "1s", none, some "5000", none⟩ : AnimDirective).repeatDur ≠ some "indefinite") ∧
    JSNum.gt (claimedSpan ⟨some "1s", none, some "5000", none⟩) (JSNum.num 3600000) = true ∧
    parseAnimationTiming (⟨some "1s", none, some "5000", none⟩ : AnimDirective) =
      { endTime := none, isInfinite := true,
        baseDuration := some (claimedBase ⟨some "1s", none, some "5000", none⟩),
        isExplicitInfinite := false } :=
  ⟨by decide, by decide, by decide, by decide,
    long_span_reclassified_infinite.1 _ (by decide) (by decide) (by decide) (by decide)⟩

/-- C4 counterexample: `".s"` is not of the shape `<number><unit>`, yet
`parseTime` returns `NaN` rather than the null sentinel. -/
theorem parseTime_dot_counterexample :
    ¬NumberShape (String.mk ['.', 's']) ∧
      parseTime (String.mk ['.', 's']) = some JSNum.nan := by
  constructor
  · rintro ⟨p, u, hsplit, hnum, hu⟩
    have hd : (String.mk ['.', 's']).data = ['.', 's'] := rfl
    rw [hd] at hsplit
    rcases hu with ⟨a, hu1, ha⟩ | ⟨a, b, hu2, ham, hbs⟩
    · subst hu1
      cases p with
      | nil => simp at hsplit
      | cons c1 rest =>
        cases rest with
        | nil =>
          simp at hsplit
          obtain ⟨h1, -⟩ := hsplit
          subst h1
          exact absurd hnum (by decide)
        | cons c2 rest2 =>
          have hlen := congrArg List.length hsplit
          simp at hlen
    · subst hu2
      cases p with
      | nil =>
        simp at hsplit
        obtain ⟨h1, -⟩ := hsplit
        subst h1
        rcases ham with hm | hm <;> exact absurd hm (by decide)
      | cons c1 rest =>
        have hlen := congrArg List.length hsplit
        simp at hlen
  · decide

/-- C4 amended: the parser returns the millisecond value for every genuine
`<number><unit>` input (unit case-insensitive, fractional numbers allowed);
it returns the null sentinel exactly when the input does not match the regex
`[\d.]+(ms|s)` (case-insensitive) — inputs matching the regex with a
digitless numeric part, such as `".s"`, produce `NaN` instead of null — and
it never throws; `"1.5s"` gives 1500, `"1000ms"` gives 1000, `"abc"` is
null. -/
theorem parseTime_amended :
    (∀ p u : List Char, isNumeral p = true → UnitChars u →
      parseTime (String.mk (p ++ u)) =
        some (JSNum.num (numeralVal p * unitScale u))) ∧
    (∀ s : String, parseTime s = none ↔ ¬TimeShape s) ∧
    parseTime "1.5s" = some (JSNum.num 1500) ∧
    parseTime "1000ms" = some (JSNum.num 1000) ∧
    parseTime "abc" = none := by
  refine ⟨?_, parseTime_eq_none_iff, by decide, by decide, by decide⟩
  intro p u hnum hu
  have hall : p.all isDigitDot = true := by
    unfold isNumeral at hnum
    rw [Bool.and_eq_true, Bool.and_eq_true] at hnum
    exact hnum.1.1
  have hp : p ≠ [] := by
    intro hcon
    unfold isNumeral at hnum
    rw [hcon] at hnum
    exact absurd hnum (by decide)
  rw [parseTime_decomposed p u hp hall hu, jsParseFloat_numeral p hnum]
  show some (JSNum.num (qMul (numeralVal p) (unitScale u))) =
    some (JSNum.num (numeralVal p * unitScale u))
  rw [qMul_eq]

/-- C4 witness: the amended positive contract applied to `"1.5s"`. -/
theorem parseTime_amended_witness :
    isNumeral ['1', '.', '5'] = true ∧ UnitChars ['s'] ∧
    parseTime (String.mk (['1', '.', '5'] ++ ['s'])) =
      some (JSNum.num (numeralVal ['1', '.', '5'] * unitScale ['s'])) :=
  ⟨by decide, Or.inl ⟨'s', rfl, Or.inl rfl⟩,
    parseTime_amended.1 ['1', '.', '5'] ['s'] (by decide) (Or.inl ⟨'s', rfl, Or.inl rfl⟩)⟩

/-- C5: a `viewBox` whose four numbers are separated by commas alone is
rejected (the code splits on whitespace only, finds one token and throws),
while the same numbers separated by spaces yield the dimensions — the
failing input of the claim's comma support. -/
theorem viewBox_comma_divergence :
    extractDimensions none none (some "0,0,100,50") =
      Except.error
        "Unable to extract valid dimensions from SVG (no width/height attributes or viewBox)" ∧
    extractDimensions none none (some "0 0 100 50") =
      Except.ok { width := JSNum.num 100, height := JSNum.num 50 } := by
  exact ⟨by decide, by decide⟩

/-- C6: any accepted analysis satisfies: `duration` is non-null only when
there are animations and none is infinite; `loopDuration` is non-null only
when some animation is infinite. -/
theorem analysis_null_invariants (w h vb : Option String) (ds : List AnimDirective)
    (r : SVGAnalysis) (hok : analyzeSVG w h vb ds = Except.ok r) :
    (r.duration ≠ none → r.hasAnimations = true ∧ r.hasInfiniteAnimations = false) ∧
    (r.loopDuration ≠ none → r.hasInfiniteAnimations = true) := by
  unfold analyzeSVG at hok
  cases hex : extractDimensions w h vb with
  | error e =>
    rw [hex] at hok
    exact Except.noConfusion hok
  | ok dims =>
    rw [hex] at hok
    have hok2 : Except.ok
        { dimensions := dims
          duration := (analyzeAnimations ds).duration
          hasAnimations := (analyzeAnimations ds).hasAnimations
          hasInfiniteAnimations := (analyzeAnimations ds).hasInfiniteAnimations
          loopDuration := (analyzeAnimations ds).loopDuration } = Except.ok r := hok
    have hr := (Except.ok.inj hok2).symm
    subst hr
    exact animationInfo_invariants ds

/-- C6 witness: a static-dimension document with one finite animation. -/
theorem analysis_null_invariants_witness :
    analyzeSVG (some "100") (some "50") none
        [{ dur := some "2s", begin := none, repeatCount := none, repeatDur := none }] =
      Except.ok
        { dimensions := { width := JSNum.num 100, height := JSNum.num 50 },
          duration := some (JSNum.num 2000), hasAnimations := true,
          hasInfiniteAnimations := false, loopDuration := none } ∧
    (some (JSNum.num 2000) ≠ (none : Option JSNum)) ∧
    ((true : Bool) = true ∧ (false : Bool) = false) :=
  ⟨by decide, by decide,
    (analysis_null_invariants (some "100") (some "50") none
      [{ dur := some "2s", begin := none, repeatCount := none, repeatDur := none }]
      { dimensions := { width := JSNum.num 100, height := JSNum.num 50 },
        duration := some (JSNum.num 2000), hasAnimations := true,
        hasInfiniteAnimations := false, loopDuration := none }
      (by decide)).1 (by decide)⟩

/-- C7 counterexample: with a supplied manual duration of 0 the claimed
policy (manual always wins) validates 0 and fails, while the code treats the
falsy 0 as absent and records the 4000 ms loop. -/
theorem manual_zero_counterexample :
    claimedDurationDecision (some 0) (analyzeAnimations exLoopDoc) =
      Except.error "Duration must be a positive number" ∧
    decideDurationMs (some 0) (analyzeAnimations exLoopDoc) =
      Except.ok (JSNum.num 4000) ∧
    claimedDurationDecision (some 0) (analyzeAnimations exLoopDoc) ≠
      decideDurationMs (some 0) (analyzeAnimations exLoopDoc) := by
  exact ⟨by decide, by decide, by decide⟩

/-- C7 amended: on any analysis result the decision follows the claimed
precedence with one change — a supplied nonzero manual duration always wins,
while a supplied zero is treated as absent; the remaining cascade (use
non-null `loopDuration` under infinite animations, else the three fatal
cases, else `totalDuration`) is as claimed. -/
theorem duration_decision_amended (manual : Option ℚ) (ds : List AnimDirective) :
    decideDurationMs manual (analyzeAnimations ds) =
      amendedDurationDecision manual (analyzeAnimations ds) := by
  unfold decideDurationMs amendedDurationDecision
  cases manual with
  | none => exact inferDurationMs_eq_claimed ds
  | some q =>
    show (if q ≠ 0 then
            if 0 < q then Except.ok (JSNum.num (qMul q 1000))
            else Except.error "Duration must be a positive number"
          else inferDurationMs (analyzeAnimations ds)) =
      (if q ≠ 0 then
          if 0 < q then Except.ok (JSNum.num (qMul q 1000))
          else Except.error "Duration must be a positive number"
        else inferClaimed (analyzeAnimations ds))
    by_cases hq : q ≠ 0
    · rw [if_pos hq, if_pos hq]
    · rw [if_neg hq, if_neg hq]
      exact inferDurationMs_eq_claimed ds

/-- C8 counterexample: `dur="7200s"` has no indefinite sentinel, its claimed
end time is 7200000 ms, but the window is reclassified infinite and carries
no end time. -/
theorem end_time_ceiling_counterexample :
    exLongFinite.dur ≠ some "indefinite" ∧
    exLongFinite.repeatCount ≠ some "indefinite" ∧
    exLongFinite.repeatDur ≠ some "indefinite" ∧
    JSNum.add (claimedStart exLongFinite) (claimedSpan exLongFinite) =
      JSNum.num 7200000 ∧
    (parseAnimationTiming exLongFinite).endTime = none := by
  exact ⟨by decide, by decide, by decide, by decide, by decide⟩

/-- C8 amended: for a directive with no indefinite sentinel whose computed
total span does not exceed one hour, the total span is the parsed
repeat-duration when present and parseable, else base duration times repeat
count (count defaulting to 1 when absent, unparseable or non-positive), and
the window's end time is the parsed start offset (default 0) plus that
span. -/
theorem finite_window_span_amended (el : AnimDirective)
    (h1 : el.dur ≠ some "indefinite") (h2 : el.repeatCount ≠ some "indefinite")
    (h3 : el.repeatDur ≠ some "indefinite")
    (h4 : JSNum.gt (claimedSpan el) (JSNum.num 3600000) = false) :
    totalSpanOf el = claimedSpan el ∧
      (parseAnimationTiming el).endTime =
        some (JSNum.add (claimedStart el) (claimedSpan el)) := by
  refine ⟨(claimedSpan_eq el).symm, ?_⟩
  rw [claimedStart_eq, claimedSpan_eq]
  rw [claimedSpan_eq] at h4
  unfold parseAnimationTiming
  rw [if_neg h1, if_neg h2, if_neg h3, if_neg (by simp [h4])]

/-- C8 witness: `dur="2s" begin="1s" repeatCount="3"` has span 6000 and end
time 7000. -/
theorem finite_window_span_amended_witness :
    exFiniteDirective.dur ≠ some "indefinite" ∧
    exFiniteDirective.repeatCount ≠ some "indefinite" ∧
    exFiniteDirective.repeatDur ≠ some "indefinite" ∧
    JSNum.gt (claimedSpan exFiniteDirective) (JSNum.num 3600000) = false ∧
    (totalSpanOf exFiniteDirective = claimedSpan exFiniteDirective ∧
      (parseAnimationTiming exFiniteDirective).endTime =
        some (JSNum.add (claimedStart exFiniteDirective) (claimedSpan exFiniteDirective))) ∧
    (parseAnimationTiming exFiniteDirective).endTime = some (JSNum.num 7000) :=
  ⟨by decide, by decide, by decide, by decide,
    finite_window_span_amended exFiniteDirective (by decide) (by decide) (by decide)
      (by decide),
    by decide⟩

/-- C9: a non-null `loopDuration` is always a strictly positive number, and a
document whose infinite directives have no positive parseable base duration
reports infinite animations with a null `loopDuration`. -/
theorem loop_duration_positive :
    (∀ (ds : List AnimDirective) (v : JSNum),
      (analyzeAnimations ds).loopDuration = some v →
        ∃ q : ℚ, v = JSNum.num q ∧ 0 < q) ∧
    (analyzeAnimations exUndetectable).hasInfiniteAnimations = true ∧
    (analyzeAnimations exUndetectable).loopDuration = none := by
  exact ⟨fun ds v h => loopDuration_posnum ds v h, by decide, by decide⟩

/-- C9 witness: the 76-second explicit loop gives `loopDuration = 76000 > 0`. -/
theorem loop_duration_positive_witness :
    (analyzeAnimations exLoop76).loopDuration = some (JSNum.num 76000) ∧
    (∃ q : ℚ, JSNum.num 76000 = JSNum.num q ∧ 0 < q) :=
  ⟨by decide, loop_duration_positive.1 exLoop76 (JSNum.num 76000) (by decide)⟩

/-- C10: the begin attribute never influences whether a window is infinite,
its base duration or its explicit-forever flag; an infinite window is
entirely independent of begin, and document-level `hasInfiniteAnimations`
and `loopDuration` are invariant under changing begin attributes. -/
theorem begin_no_influence_infinite :
    (∀ a b : AnimDirective, sameTiming a b →
      (parseAnimationTiming a).isInfinite = (parseAnimationTiming b).isInfinite ∧
      (parseAnimationTiming a).baseDuration = (parseAnimationTiming b).baseDuration ∧
      (parseAnimationTiming a).isExplicitInfinite =
        (parseAnimationTiming b).isExplicitInfinite ∧
      ((parseAnimationTiming a).isInfinite = true →
        parseAnimationTiming a = parseAnimationTiming b)) ∧
    (∀ ds1 ds2 : List AnimDirective, List.Forall₂ sameTiming ds1 ds2 →
      (analyzeAnimations ds1).hasInfiniteAnimations =
        (analyzeAnimations ds2).hasInfiniteAnimations ∧
      (analyzeAnimations ds1).loopDuration = (analyzeAnimations ds2).loopDuration) := by
  constructor
  · intro a b hs
    obtain ⟨da, ba, ra, pa⟩ := a
    obtain ⟨db, bb, rb, pb⟩ := b
    obtain ⟨hd, hr, hp⟩ := hs
    simp only at hd hr hp
    subst hd
    subst hr
    subst hp
    exact window_begin_invariant da ra pa ba bb
  · intro ds1 ds2 hf
    obtain ⟨hany, hloops, hexp⟩ := collectors_begin_invariant ds1 ds2 hf
    rw [analyzeAnimations_eq, analyzeAnimations_eq]
    simp only
    rw [hany, hloops, hexp]
    exact ⟨rfl, rfl⟩

/-- C10 witness: two explicit-forever directives differing only in begin
produce identical windows and identical loop durations. -/
theorem begin_no_influence_infinite_witness :
    sameTiming dirBeginA dirBeginB ∧
    (parseAnimationTiming dirBeginA).isInfinite = true ∧
    parseAnimationTiming dirBeginA = parseAnimationTiming dirBeginB ∧
    (analyzeAnimations [dirBeginA]).loopDuration =
      (analyzeAnimations [dirBeginB]).loopDuration :=
  ⟨⟨rfl, rfl, rfl⟩, by decide,
    (begin_no_influence_infinite.1 dirBeginA dirBeginB ⟨rfl, rfl, rfl⟩).2.2.2 (by decide),
    (begin_no_influence_infinite.2 [dirBeginA] [dirBeginB]
      (List.Forall₂.cons ⟨rfl, rfl, rfl⟩ List.Forall₂.nil)).2⟩

end SvgVideo
